import Mathlib

/-!
# Shear-force / bending-moment engine of `script.js`

A shallow embedding of the numerical core of the `App` class
(`calculateReactions`, `calculateShearForce`, `calculateBendingMoment`,
`findSpecialPoints`) and theorems about it.

Modelling conventions.

* JavaScript numbers are modelled by exact rationals `ℚ`; the decimal literals
  `0.0001`, `0.01` and `1e-9` are the rationals `1/10000`, `1/100`, `1/10^9`.
  `NaN` and infinite inputs are outside the model.  Statements about this
  embedding are statements in exact arithmetic.
* Where binary64 rounding itself is the subject, `calculateReactions64` is the
  same method with every arithmetic operation followed by the rounding `fl`
  (to nearest, ties to even, 53 significant bits; overflow and subnormal
  results are not modelled).
* Every division of the source is either guarded by the source itself so that
  the divisor is non-zero when it is reached (`w1 + w2`, `distSup`, `fullLen`),
  or (the slope in `findSpecialPoints`, where `p2.x - p1.x` may be `0`) modelled
  by an explicit case for the infinite quotient.
* `forEach` loops over arrays are left folds threading the mutated locals;
  index loops over adjacent elements are structural recursions carrying the
  previous element.
* The DOM writes of `calculateShearForce` are not part of the model.
-/

namespace SFDandBMD

/-! ## Data model -/

/-- Entry of `this.supports`: `{ x, type }`. -/
structure Support where
  x : ℚ
  type : String
  deriving DecidableEq, Repr

/-- Entry of `this.loads`: `{ start, end, startMagnitude, endMagnitude }`
(the field `end` is spelled `end_`). -/
structure Load where
  start : ℚ
  end_ : ℚ
  startMagnitude : ℚ
  endMagnitude : ℚ
  deriving DecidableEq, Repr

/-- Entry of `this.pointLoads`: `{ x, magnitude }`. -/
structure PointLoad where
  x : ℚ
  magnitude : ℚ
  deriving DecidableEq, Repr

/-- Entry of the `reactions` array: `{ x, value, name }`. -/
structure Reaction where
  x : ℚ
  value : ℚ
  name : String
  deriving DecidableEq, Repr

/-- Entry of the shear / moment arrays: `{ x, v }`. -/
structure Sample where
  x : ℚ
  v : ℚ
  deriving DecidableEq, Repr

/-- Entry of the array returned by `findSpecialPoints`: `{ x, v, label }`. -/
structure Point where
  x : ℚ
  v : ℚ
  label : String
  deriving DecidableEq, Repr

/-- The fields of `App` read by the engine. -/
structure App where
  beamLength : ℚ
  supports : List Support
  loads : List Load
  pointLoads : List PointLoad
  deriving DecidableEq, Repr

/-- Result object of `calculateReactions`: `{ error }` or `{ reactions }`. -/
inductive Solution where
  | error (msg : String)
  | reactions (rs : List Reaction)
  deriving DecidableEq, Repr

/-! ## calculateReactions -/

/-- The two-element `[s1, s2].sort((a, b) => a.x - b.x)`: the pair is swapped
exactly when the comparator is positive on it. -/
def sortSupports (s1 s2 : Support) : Support × Support :=
  if s1.x - s2.x > 0 then (s2, s1) else (s1, s2)

/-- The local `centroidDistFromLoadStart` of the `this.loads.forEach` body. -/
def centroidDistFromLoadStart (load : Load) : ℚ :=
  let w1 := load.startMagnitude
  let w2 := load.endMagnitude
  let L_load := load.end_ - load.start
  if w1 + w2 = 0 then L_load / 2
  else (L_load / 3) * (w1 + 2 * w2) / (w1 + w2)

/-- Body of `this.loads.forEach` in `calculateReactions`, acting on the pair
`(sumMomentA, totalLoad)`. -/
def loadMomentStep (Ax : ℚ) (acc : ℚ × ℚ) (load : Load) : ℚ × ℚ :=
  let w1 := load.startMagnitude
  let w2 := load.endMagnitude
  let L_load := load.end_ - load.start
  let F := ((w1 + w2) / 2) * L_load
  let center := load.start + centroidDistFromLoadStart load
  let distA := center - Ax
  (acc.1 + F * distA, acc.2 + F)

/-- Body of `this.pointLoads.forEach` in `calculateReactions`. -/
def pointMomentStep (Ax : ℚ) (acc : ℚ × ℚ) (load : PointLoad) : ℚ × ℚ :=
  let F := load.magnitude
  let distA := load.x - Ax
  (acc.1 + F * distA, acc.2 + F)

/-- The method `calculateReactions`. -/
def calculateReactions (app : App) : Solution :=
  match app.supports with
  | [s1, s2] =>
    let sorted := sortSupports s1 s2
    let A := sorted.1
    let B := sorted.2
    let acc0 : ℚ × ℚ := (0, 0)
    let acc1 := app.loads.foldl (loadMomentStep A.x) acc0
    let acc2 := app.pointLoads.foldl (pointMomentStep A.x) acc1
    let sumMomentA := acc2.1
    let totalLoad := acc2.2
    let distSup := B.x - A.x
    if distSup = 0 then Solution.error "Supports cannot be at the same location."
    else
      let Rb := sumMomentA / distSup
      let Ra := totalLoad - Rb
      Solution.reactions [⟨A.x, Ra, "Ra"⟩, ⟨B.x, Rb, "Rb"⟩]
  | _ => Solution.error "Please ensure exactly 2 supports."

/-! ## calculateShearForce -/

/-- The constant `points` of `calculateShearForce`. -/
def points : ℕ := 1000

/-- The test `p < x || Math.abs(p - x) < 0.0001` applied to reactions and
point loads. -/
def passed (p x : ℚ) : Bool :=
  decide (p < x) || decide (|p - x| < 1 / 10000)

/-- Body of `solution.reactions.forEach` in `calculateShearForce`. -/
def reactionShearStep (x : ℚ) (shear : ℚ) (r : Reaction) : ℚ :=
  if passed r.x x then shear + r.value else shear

/-- Body of `this.pointLoads.forEach` in `calculateShearForce`. -/
def pointShearStep (x : ℚ) (shear : ℚ) (load : PointLoad) : ℚ :=
  if passed load.x x then shear - load.magnitude else shear

/-- The local `loadContrib` of the `this.loads.forEach` body, computed when
the branch `end > start` is taken. -/
def loadContrib (x : ℚ) (load : Load) : ℚ :=
  let w1 := load.startMagnitude
  let w2 := load.endMagnitude
  let end' := min x load.end_
  let fullLen := load.end_ - load.start
  let x_local := end' - load.start
  w1 * x_local + ((w2 - w1) / fullLen) * (x_local * x_local) / 2

/-- The branch condition `end > start` of the `this.loads.forEach` body, with
`start = Math.max(0, load.start)` and `end = Math.min(x, load.end)`. -/
def loadBranch (x : ℚ) (load : Load) : Bool :=
  decide (min x load.end_ > max 0 load.start)

/-- The amount the `this.loads.forEach` body subtracts from `shear` for one
load (`0` when the branch is not taken). -/
def loadShearAmount (x : ℚ) (load : Load) : ℚ :=
  if loadBranch x load then loadContrib x load else 0

/-- Body of `this.loads.forEach` in `calculateShearForce`. -/
def loadShearStep (x : ℚ) (shear : ℚ) (load : Load) : ℚ :=
  if loadBranch x load then shear - loadContrib x load else shear

/-- The position `x = (i / points) * this.beamLength` of sample `i`. -/
def sampleX (app : App) (i : ℕ) : ℚ :=
  ((i : ℚ) / (points : ℚ)) * app.beamLength

/-- One iteration of the sampling loop: the pushed `{ x, v: shear }`. -/
def shearSample (app : App) (rs : List Reaction) (i : ℕ) : Sample :=
  let x := sampleX app i
  let shear0 : ℚ := 0
  let shear1 := rs.foldl (reactionShearStep x) shear0
  let shear2 := app.pointLoads.foldl (pointShearStep x) shear1
  let shear3 := app.loads.foldl (loadShearStep x) shear2
  ⟨x, shear3⟩

/-- The method `calculateShearForce`; `none` is the `null` returned when the
reactions cannot be solved. -/
def calculateShearForce (app : App) : Option (List Sample) :=
  match calculateReactions app with
  | Solution.error _ => none
  | Solution.reactions rs =>
    some ((List.range (points + 1)).map (shearSample app rs))

/-! ## calculateBendingMoment -/

/-- The `for (let i = 1; ...)` loop of `calculateBendingMoment`: `p1` is
`shearData[i - 1]`, `moment` the running local, the list the remaining
`shearData[i..]`; the result is the samples pushed from here on. -/
def momentLoop : Sample → ℚ → List Sample → List Sample
  | _, _, [] => []
  | p1, moment, p2 :: rest =>
    let dx := p2.x - p1.x
    let dArea := ((p1.v + p2.v) / 2) * dx
    let moment' := moment + dArea
    ⟨p2.x, moment'⟩ :: momentLoop p2 moment' rest

/-- The method `calculateBendingMoment` (`none` is `null`). -/
def calculateBendingMoment (shearData : List Sample) : Option (List Sample) :=
  match shearData with
  | [] => none
  | p0 :: rest => some (⟨p0.x, 0⟩ :: momentLoop p0 0 rest)

/-! ## findSpecialPoints -/

/-- Body of the zero-crossing loop for the adjacent pair `(p1, p2)`: the point
pushed, if any.  When `p2.x = p1.x` the JavaScript slope is infinite (its
numerator is non-zero on this branch), the test `Math.abs(slope) > 1e-9`
succeeds, `dx_local` is `0` and the point is pushed at `p1.x`. -/
def zeroCrossing (p1 p2 : Sample) : Option Point :=
  if (p1.v ≥ 0 ∧ p2.v < 0) ∨ (p1.v < 0 ∧ p2.v ≥ 0) then
    if p2.x - p1.x = 0 then some ⟨p1.x, 0, "0"⟩
    else
      let slope := (p2.v - p1.v) / (p2.x - p1.x)
      if |slope| > 1 / 10 ^ 9 then
        let dx_local := -p1.v / slope
        some ⟨p1.x + dx_local, 0, "0"⟩
      else none
  else none

/-- The zero-crossing loop `for (let i = 1; i < data.length; i++)`: `p1` is
`data[i - 1]`, the list is `data[i..]`, `pts` the array `points` so far. -/
def zeroLoop : Sample → List Sample → List Point → List Point
  | _, [], pts => pts
  | p1, p2 :: rest, pts =>
    match zeroCrossing p1 p2 with
    | some z => zeroLoop p2 rest (pts ++ [z])
    | none => zeroLoop p2 rest pts

/-- Body of the extrema `data.forEach`; `none` stands for the initial
`-Infinity` of `globalMax`. -/
def maxStep (globalMax : Option ℚ) (p : Sample) : Option ℚ :=
  match globalMax with
  | none => some p.v
  | some m => if p.v > m then some p.v else some m

/-- Body of the extrema `data.forEach`; `none` stands for the initial
`Infinity` of `globalMin`. -/
def minStep (globalMin : Option ℚ) (p : Sample) : Option ℚ :=
  match globalMin with
  | none => some p.v
  | some m => if p.v < m then some p.v else some m

/-- The closure `addIfNotExists(p, label)` acting on the array `points`. -/
def addIfNotExists (pts : List Point) (p : Sample) (label : String) : List Point :=
  if pts.any (fun ex => decide (|ex.x - p.x| < 1 / 100)) then pts
  else pts ++ [⟨p.x, p.v, label⟩]

/-- The guarded call `if (q) addIfNotExists(q, label)`. -/
def addFound (pts : List Point) (q : Option Sample) (label : String) : List Point :=
  match q with
  | some p => addIfNotExists pts p label
  | none => pts

/-- The method `findSpecialPoints(data, type)` (`type` is unused by it). -/
def findSpecialPoints (data : List Sample) : List Point :=
  match data with
  | [] => []
  | [_] => []
  | d0 :: d1 :: rest =>
    let dLast := (d1 :: rest).getLast (List.cons_ne_nil d1 rest)
    let pts0 : List Point := [⟨d0.x, d0.v, "Start"⟩, ⟨dLast.x, dLast.v, "End"⟩]
    let pts1 := zeroLoop d0 (d1 :: rest) pts0
    let globalMax := data.foldl maxStep none
    let globalMin := data.foldl minStep none
    let maxP := data.find? (fun p => decide (some p.v = globalMax))
    let minP := data.find? (fun p => decide (some p.v = globalMin))
    let pts2 := addFound pts1 maxP "Max"
    addFound pts2 minP "Min"

/-! ## Closed forms used in the statements -/

/-- The local `F` of the `this.loads.forEach` body of `calculateReactions`:
the area of the load's trapezoid. -/
def resultant (load : Load) : ℚ :=
  ((load.startMagnitude + load.endMagnitude) / 2) * (load.end_ - load.start)

/-- Value of the local `totalLoad` after both `forEach` loops. -/
def totalLoad (app : App) : ℚ :=
  (app.loads.map resultant).sum + (app.pointLoads.map (fun p => p.magnitude)).sum

/-- Value of the local `sumMomentA` after both `forEach` loops, for `A.x = Ax`. -/
def sumMomentAbout (app : App) (Ax : ℚ) : ℚ :=
  (app.loads.map
      (fun l => resultant l * (l.start + centroidDistFromLoadStart l - Ax))).sum
    + (app.pointLoads.map (fun p => p.magnitude * (p.x - Ax))).sum

/-- The default configuration set up by the constructor of `App`. -/
def defaultApp : App :=
  { beamLength := 10
    supports := [⟨0, "pin"⟩, ⟨10, "roller"⟩]
    loads := []
    pointLoads := [⟨5, 10⟩] }

/-- A configuration with a trapezoidal load, used to instantiate theorems. -/
def sampleApp : App :=
  { beamLength := 10
    supports := [⟨8, "roller"⟩, ⟨2, "pin"⟩]
    loads := [⟨1, 7, 3, 9⟩]
    pointLoads := [⟨5, 10⟩, ⟨9, -4⟩] }

/-- The moment about `Ax` of the linear intensity of a distributed load, in
closed form: the value of the integral of `w(t) * (t - Ax)` over
`[start, end]` (see `trueMoment_eq_integral`). -/
def trueMoment (l : Load) (Ax : ℚ) : ℚ :=
  (l.startMagnitude + l.endMagnitude) / 2 * (l.end_ - l.start) * (l.start - Ax)
    + (l.end_ - l.start) ^ 2 * (l.startMagnitude + 2 * l.endMagnitude) / 6

/-- Moment equilibrium about the support of `Ra`, as the specification
states it: `Rb * (B - A)` is the sum of the point-load moments and of the
integrals over `[start, end]` of `w(t) * (t - A)`, with `w` linear from
`startMagnitude` at `start` to `endMagnitude` at `end`. -/
def MomentClosure (app : App) (Ra Rb : Reaction) : Prop :=
  (Rb.value : ℝ) * ((Rb.x : ℝ) - (Ra.x : ℝ)) =
    (app.pointLoads.map (fun p => (p.magnitude : ℝ) * ((p.x : ℝ) - (Ra.x : ℝ)))).sum
      + (app.loads.map (fun l =>
          ∫ t in (l.start : ℝ)..(l.end_ : ℝ),
            ((l.startMagnitude : ℝ)
                + ((l.endMagnitude : ℝ) - (l.startMagnitude : ℝ)) * (t - (l.start : ℝ))
                    / ((l.end_ : ℝ) - (l.start : ℝ)))
              * (t - (Ra.x : ℝ)))).sum

/-- A configuration whose only load is a couple: intensity `1` at its start,
`-1` at its end. -/
def coupleApp : App :=
  { beamLength := 10
    supports := [⟨0, "pin"⟩, ⟨10, "roller"⟩]
    loads := [⟨0, 6, 1, -1⟩]
    pointLoads := [] }

/-- The zero-crossing points of a sample sequence in sample order: the points
`zeroCrossing` yields on the adjacent pairs `(data[i - 1], data[i])`. -/
def zeroPoints (data : List Sample) : List Point :=
  (data.zip data.tail).filterMap (fun pq => zeroCrossing pq.1 pq.2)

/-- The sample `p` is the first sample of `data` attaining the maximum value. -/
def FirstMax (data : List Sample) (p : Sample) : Prop :=
  ∃ pre post, data = pre ++ p :: post ∧ (∀ q ∈ pre, q.v < p.v) ∧ (∀ q ∈ post, q.v ≤ p.v)

/-- The sample `p` is the first sample of `data` attaining the minimum value. -/
def FirstMin (data : List Sample) (p : Sample) : Prop :=
  ∃ pre post, data = pre ++ p :: post ∧ (∀ q ∈ pre, p.v < q.v) ∧ (∀ q ∈ post, p.v ≤ q.v)

/-- Some point of `pts` lies within `0.01` of the position `x`. -/
def Near (pts : List Point) (x : ℚ) : Prop :=
  ∃ e ∈ pts, |e.x - x| < 1 / 100

/-- The points of a result of `findSpecialPoints` that carry the label `0`. -/
def zeroLabelled (pts : List Point) : List Point :=
  pts.filter (fun p => decide (p.label = "0"))

/-- The linear-interpolation root of the adjacent pair `(p1, p2)`. -/
def interpolatedRoot (p1 p2 : Sample) : ℚ :=
  p1.x + (-p1.v) * (p2.x - p1.x) / (p2.v - p1.v)

/-- A beam of length `L` with supports at `0` and `L` and a single point load
`P` at `L / 2`. -/
def midspanApp (L P : ℚ) (t1 t2 : String) : App :=
  { beamLength := L
    supports := [⟨0, t1⟩, ⟨L, t2⟩]
    loads := []
    pointLoads := [⟨L / 2, P⟩] }

/-- A beam of length `L` with supports at `0` and `L` and a uniform load of
intensity `w` on `[0, L]`. -/
def uniformApp (L w : ℚ) (t1 t2 : String) : App :=
  { beamLength := L
    supports := [⟨0, t1⟩, ⟨L, t2⟩]
    loads := [⟨0, L, w, w⟩]
    pointLoads := [] }

/-- Closed form of the shear samples of `midspanApp L P`, by sample index. -/
def midspanShear (P : ℚ) (i : ℕ) : ℚ :=
  if i < 500 then P / 2 else if i < 1000 then -P / 2 else 0

/-- Closed form of the moment samples of `midspanApp L P`, by sample index. -/
def midspanMoment (L P : ℚ) (k : ℕ) : ℚ :=
  if k ≤ 499 then P / 2 * ((k : ℚ) / 1000 * L)
  else if k ≤ 999 then 499 * P * L / 2000 - P / 2 * (((k : ℚ) - 500) / 1000 * L)
  else -(P * L) / 4000

/-- A configuration whose uniform load of intensity `1` on `[-1, 1]` starts
left of the beam origin. -/
def negativeStartApp : App :=
  { beamLength := 10
    supports := [⟨0, "pin"⟩, ⟨10, "roller"⟩]
    loads := [⟨-1, 1, 1, 1⟩]
    pointLoads := [] }

/-! ## calculateReactions in binary64 arithmetic -/

/-- Rounding of a rational to the nearest integer, ties to the even one. -/
def roundTiesEven (q : ℚ) : ℤ :=
  let f := ⌊q⌋
  if q - f < 1 / 2 then f
  else if 1 / 2 < q - f then f + 1
  else if f % 2 = 0 then f else f + 1

/-- Exponent of the unit in the last place in the binade of `q`: the `e` with
`2^(e+52) ≤ |q| < 2^(e+53)`. -/
def ulpExponent (q : ℚ) : ℤ := Int.log 2 |q| - 52

/-- The binary64 result of an arithmetic operation whose exact value is `q`:
`q` rounded to 53 significant bits, to nearest, ties to even (IEEE 754
default rounding; overflow and subnormal results are not modelled). -/
def fl (q : ℚ) : ℚ :=
  if q = 0 then 0
  else (roundTiesEven (q / 2 ^ ulpExponent q) : ℚ) * 2 ^ ulpExponent q

/-- The binary64 number nearest to the decimal `0.1`, what `parseFloat("0.1")`
returns. -/
def tenth64 : ℚ := 3602879701896397 / 2 ^ 55

/-- The two-element sort of `calculateReactions`, comparator in binary64. -/
def sortSupports64 (s1 s2 : Support) : Support × Support :=
  if fl (s1.x - s2.x) > 0 then (s2, s1) else (s1, s2)

/-- The local `centroidDistFromLoadStart`, in binary64:
`(L_load / 3) * (w1 + 2 * w2) / (w1 + w2)` is evaluated left to right. -/
def centroidDistFromLoadStart64 (load : Load) : ℚ :=
  let w1 := load.startMagnitude
  let w2 := load.endMagnitude
  let L_load := fl (load.end_ - load.start)
  if fl (w1 + w2) = 0 then fl (L_load / 2)
  else fl (fl (fl (L_load / 3) * fl (w1 + fl (2 * w2))) / fl (w1 + w2))

/-- Body of `this.loads.forEach` in `calculateReactions`, in binary64. -/
def loadMomentStep64 (Ax : ℚ) (acc : ℚ × ℚ) (load : Load) : ℚ × ℚ :=
  let w1 := load.startMagnitude
  let w2 := load.endMagnitude
  let L_load := fl (load.end_ - load.start)
  let F := fl (fl (fl (w1 + w2) / 2) * L_load)
  let center := fl (load.start + centroidDistFromLoadStart64 load)
  let distA := fl (center - Ax)
  (fl (acc.1 + fl (F * distA)), fl (acc.2 + F))

/-- Body of `this.pointLoads.forEach` in `calculateReactions`, in binary64. -/
def pointMomentStep64 (Ax : ℚ) (acc : ℚ × ℚ) (load : PointLoad) : ℚ × ℚ :=
  let F := load.magnitude
  let distA := fl (load.x - Ax)
  (fl (acc.1 + fl (F * distA)), fl (acc.2 + F))

/-- The method `calculateReactions` with every arithmetic operation rounded to
binary64; the fields of the configuration are taken to be binary64 numbers. -/
def calculateReactions64 (app : App) : Solution :=
  match app.supports with
  | [s1, s2] =>
    let sorted := sortSupports64 s1 s2
    let A := sorted.1
    let B := sorted.2
    let acc0 : ℚ × ℚ := (0, 0)
    let acc1 := app.loads.foldl (loadMomentStep64 A.x) acc0
    let acc2 := app.pointLoads.foldl (pointMomentStep64 A.x) acc1
    let sumMomentA := acc2.1
    let totalLoad := acc2.2
    let distSup := fl (B.x - A.x)
    if distSup = 0 then Solution.error "Supports cannot be at the same location."
    else
      let Rb := fl (sumMomentA / distSup)
      let Ra := fl (totalLoad - Rb)
      Solution.reactions [⟨A.x, Ra, "Ra"⟩, ⟨B.x, Rb, "Rb"⟩]
  | _ => Solution.error "Please ensure exactly 2 supports."

/-! ## Reactions: auxiliary lemmas -/

theorem foldl_loadMomentStep (Ax : ℚ) (loads : List Load) (acc : ℚ × ℚ) :
    loads.foldl (loadMomentStep Ax) acc =
      (acc.1 + (loads.map
          (fun l => resultant l * (l.start + centroidDistFromLoadStart l - Ax))).sum,
        acc.2 + (loads.map resultant).sum) := by
  induction loads generalizing acc with
  | nil => simp
  | cons l ls ih =>
    rw [List.foldl_cons, ih]
    simp only [loadMomentStep, resultant, List.map_cons, List.sum_cons]
    ext <;> simp only <;> ring

theorem foldl_pointMomentStep (Ax : ℚ) (pls : List PointLoad) (acc : ℚ × ℚ) :
    pls.foldl (pointMomentStep Ax) acc =
      (acc.1 + (pls.map (fun p => p.magnitude * (p.x - Ax))).sum,
        acc.2 + (pls.map (fun p => p.magnitude)).sum) := by
  induction pls generalizing acc with
  | nil => simp
  | cons l ls ih =>
    rw [List.foldl_cons, ih]
    simp only [pointMomentStep, List.map_cons, List.sum_cons]
    ext <;> simp only <;> ring

theorem sortSupports_fst_x (s1 s2 : Support) :
    (sortSupports s1 s2).1.x = min s1.x s2.x := by
  unfold sortSupports
  split_ifs with h
  · have : s2.x < s1.x := by linarith
    simp [min_eq_right this.le]
  · have : s1.x ≤ s2.x := by linarith
    simp [min_eq_left this]

theorem sortSupports_snd_x (s1 s2 : Support) :
    (sortSupports s1 s2).2.x = max s1.x s2.x := by
  unfold sortSupports
  split_ifs with h
  · have : s2.x < s1.x := by linarith
    simp [max_eq_left this.le]
  · have : s1.x ≤ s2.x := by linarith
    simp [max_eq_right this]

/-- With two supports at distinct positions the solver returns the two
reactions in closed form. -/
theorem calculateReactions_two (app : App) (s1 s2 : Support)
    (hs : app.supports = [s1, s2]) (hne : s1.x ≠ s2.x) :
    calculateReactions app = Solution.reactions
      [⟨min s1.x s2.x,
          totalLoad app
            - sumMomentAbout app (min s1.x s2.x) / (max s1.x s2.x - min s1.x s2.x), "Ra"⟩,
        ⟨max s1.x s2.x,
          sumMomentAbout app (min s1.x s2.x) / (max s1.x s2.x - min s1.x s2.x), "Rb"⟩] := by
  have hd : max s1.x s2.x - min s1.x s2.x ≠ 0 := by
    rcases lt_or_gt_of_ne hne with h | h
    · rw [max_eq_right h.le, min_eq_left h.le]; linarith
    · rw [max_eq_left h.le, min_eq_right h.le]; linarith
  unfold calculateReactions
  rw [hs]
  simp only [foldl_loadMomentStep, foldl_pointMomentStep, sortSupports_fst_x,
    sortSupports_snd_x, if_neg hd, totalLoad, sumMomentAbout, zero_add]

/-- With two supports at the same position the solver reports the
degenerate-span error. -/
theorem calculateReactions_same (app : App) (s1 s2 : Support)
    (hs : app.supports = [s1, s2]) (heq : s1.x = s2.x) :
    calculateReactions app =
      Solution.error "Supports cannot be at the same location." := by
  unfold calculateReactions
  rw [hs]
  simp only [sortSupports_fst_x, sortSupports_snd_x, heq, min_self, max_self, sub_self,
    if_true]

/-- With a support count other than two the solver reports the count error. -/
theorem calculateReactions_count (app : App) (hs : app.supports.length ≠ 2) :
    calculateReactions app = Solution.error "Please ensure exactly 2 supports." := by
  unfold calculateReactions
  split
  · rename_i s1 s2 h
    rw [h] at hs
    simp at hs
  · rfl

/-! ## Claims on `calculateReactions` -/

/-- C1 (force equilibrium): with exactly two supports at distinct positions,
`calculateReactions` returns two reactions whose values add up to the sum
of the point-load magnitudes plus the trapezoid areas
`(startMagnitude + endMagnitude)/2 * (end - start)` of the distributed loads. -/
theorem C1_force_equilibrium (app : App) (s1 s2 : Support)
    (hs : app.supports = [s1, s2]) (hne : s1.x ≠ s2.x) :
    ∃ Ra Rb : Reaction, calculateReactions app = Solution.reactions [Ra, Rb] ∧
      Ra.value + Rb.value =
        (app.pointLoads.map (fun p => p.magnitude)).sum
          + (app.loads.map
              (fun l => (l.startMagnitude + l.endMagnitude) / 2 * (l.end_ - l.start))).sum := by
  refine ⟨_, _, calculateReactions_two app s1 s2 hs hne, ?_⟩
  have hres : resultant
      = fun l => (l.startMagnitude + l.endMagnitude) / 2 * (l.end_ - l.start) := rfl
  simp only [totalLoad, hres]
  ring

theorem C1_force_equilibrium_witness :
    sampleApp.supports = [⟨8, "roller"⟩, ⟨2, "pin"⟩] ∧ (8 : ℚ) ≠ 2 ∧
    ∃ Ra Rb : Reaction, calculateReactions sampleApp = Solution.reactions [Ra, Rb] ∧
      Ra.value + Rb.value =
        (sampleApp.pointLoads.map (fun p => p.magnitude)).sum
          + (sampleApp.loads.map
              (fun l => (l.startMagnitude + l.endMagnitude) / 2 * (l.end_ - l.start))).sum :=
  ⟨rfl, by norm_num,
    C1_force_equilibrium sampleApp ⟨8, "roller"⟩ ⟨2, "pin"⟩ rfl (by norm_num)⟩

/-! ## Moment equilibrium -/

/-- The integral of a linear intensity times the lever arm, in closed form. -/
theorem integral_linear_moment (s e w1 w2 A : ℝ) :
    ∫ t in s..e, (w1 + (w2 - w1) * (t - s) / (e - s)) * (t - A)
      = (w1 + w2) / 2 * (e - s) * (s - A) + (e - s) ^ 2 * (w1 + 2 * w2) / 6 := by
  by_cases h : e = s
  · subst h; simp
  · have hd : e - s ≠ 0 := sub_ne_zero.mpr h
    have key : ∀ t ∈ Set.uIcc s e,
        HasDerivAt (fun t : ℝ => w1 * (t - s) ^ 2 / 2 + w1 * (s - A) * (t - s)
            + (w2 - w1) / (e - s) * (t - s) ^ 3 / 3
            + (w2 - w1) / (e - s) * (s - A) * (t - s) ^ 2 / 2)
          ((w1 + (w2 - w1) * (t - s) / (e - s)) * (t - A)) t := by
      intro t _
      have h1 : HasDerivAt (fun t : ℝ => t - s) 1 t := (hasDerivAt_id t).sub_const s
      have h2 := h1.pow 2
      have h3 := h1.pow 3
      have := ((((h2.const_mul w1).div_const 2).add (h1.const_mul (w1 * (s - A)))).add
        ((h3.const_mul ((w2 - w1) / (e - s))).div_const 3)).add
        ((h2.const_mul ((w2 - w1) / (e - s) * (s - A))).div_const 2)
      convert this using 1
      field_simp
      ring
    rw [intervalIntegral.integral_eq_sub_of_hasDerivAt key]
    · field_simp
      ring
    · apply Continuous.intervalIntegrable
      continuity

/-- The closed form `trueMoment` is the integral of the specification. -/
theorem trueMoment_eq_integral (l : Load) (Ax : ℚ) :
    ((trueMoment l Ax : ℚ) : ℝ) =
      ∫ t in (l.start : ℝ)..(l.end_ : ℝ),
        ((l.startMagnitude : ℝ)
            + ((l.endMagnitude : ℝ) - (l.startMagnitude : ℝ)) * (t - (l.start : ℝ))
                / ((l.end_ : ℝ) - (l.start : ℝ)))
          * (t - (Ax : ℝ)) := by
  rw [integral_linear_moment]
  simp only [trueMoment]
  push_cast
  ring

/-- The moment `F * distA` accumulated by the solver for one load is the true
moment unless the load is a non-trivial couple. -/
theorem loadMoment_eq_trueMoment (l : Load) (Ax : ℚ)
    (h : l.startMagnitude + l.endMagnitude = 0 → l.endMagnitude = 0 ∨ l.start = l.end_) :
    resultant l * (l.start + centroidDistFromLoadStart l - Ax) = trueMoment l Ax := by
  unfold resultant centroidDistFromLoadStart trueMoment
  by_cases hw : l.startMagnitude + l.endMagnitude = 0
  · simp only [hw, if_true]
    have h1 : l.startMagnitude = -l.endMagnitude := by linarith
    rcases h hw with h0 | h0
    · rw [h1, h0]; ring
    · rw [h0]; ring
  · simp only [hw, if_false]
    field_simp
    ring

/-- The moment the solver accumulates for the couple of `coupleApp` is `0`,
the true one is `-6`. -/
theorem couple_moment :
    resultant ⟨0, 6, 1, -1⟩ * ((0 : ℚ) + centroidDistFromLoadStart ⟨0, 6, 1, -1⟩ - 0) = 0
      ∧ trueMoment ⟨0, 6, 1, -1⟩ 0 = -6 := by
  constructor
  · norm_num [resultant]
  · norm_num [trueMoment]

/-- C2, as amended (moment equilibrium closure): with two supports at
distinct positions and a load set none of whose distributed loads is a
non-trivial couple (`startMagnitude + endMagnitude = 0` with
`endMagnitude ≠ 0` and `start ≠ end`), the reactions `Ra` at the lower
position `A` and `Rb` at the higher position `B` satisfy
`Rb * (B - A) = Σ magnitude * (position - A) + Σ ∫ w(t) * (t - A) dt`. -/
theorem C2_moment_equilibrium (app : App) (s1 s2 : Support)
    (hs : app.supports = [s1, s2]) (hne : s1.x ≠ s2.x)
    (hdeg : ∀ l ∈ app.loads,
      l.startMagnitude + l.endMagnitude = 0 → l.endMagnitude = 0 ∨ l.start = l.end_) :
    ∃ Ra Rb : Reaction, calculateReactions app = Solution.reactions [Ra, Rb] ∧
      Ra.x = min s1.x s2.x ∧ Rb.x = max s1.x s2.x ∧ Ra.x < Rb.x ∧
      MomentClosure app Ra Rb := by
  refine ⟨_, _, calculateReactions_two app s1 s2 hs hne, rfl, rfl, ?_, ?_⟩
  · exact min_lt_max.mpr hne
  · have hd : max s1.x s2.x - min s1.x s2.x ≠ 0 :=
      sub_ne_zero.mpr (ne_of_gt (min_lt_max.mpr hne))
    have hq : sumMomentAbout app (min s1.x s2.x) / (max s1.x s2.x - min s1.x s2.x)
          * (max s1.x s2.x - min s1.x s2.x)
        = (app.pointLoads.map (fun p => p.magnitude * (p.x - min s1.x s2.x))).sum
          + (app.loads.map (fun l => trueMoment l (min s1.x s2.x))).sum := by
      rw [div_mul_cancel₀ _ hd, sumMomentAbout, add_comm]
      congr 2
      exact List.map_congr_left
        (fun l hl => loadMoment_eq_trueMoment l _ (hdeg l hl))
    have hr := congrArg (fun q : ℚ => (q : ℝ)) hq
    simp only [Rat.cast_mul, Rat.cast_sub, Rat.cast_add, Rat.cast_list_sum,
      List.map_map] at hr
    unfold MomentClosure
    simp only []
    rw [hr]
    congr 2
    · exact List.map_congr_left (fun p _ => by simp)
    · exact List.map_congr_left (fun l _ => by
        simp only [Function.comp_apply]
        exact trueMoment_eq_integral l _)

theorem C2_moment_equilibrium_witness :
    sampleApp.supports = [⟨8, "roller"⟩, ⟨2, "pin"⟩] ∧ (8 : ℚ) ≠ 2 ∧
    ∃ Ra Rb : Reaction, calculateReactions sampleApp = Solution.reactions [Ra, Rb] ∧
      Ra.x = min 8 2 ∧ Rb.x = max 8 2 ∧ Ra.x < Rb.x ∧ MomentClosure sampleApp Ra Rb :=
  ⟨rfl, by norm_num,
    C2_moment_equilibrium sampleApp ⟨8, "roller"⟩ ⟨2, "pin"⟩ rfl (by norm_num)
      (by
        intro l hl h
        simp only [sampleApp, List.mem_singleton] at hl
        subst hl
        norm_num at h)⟩

/-- C2 as stated fails: for supports at `0` and `10` and the single load on
`[0, 6]` with intensity `1` at its start and `-1` at its end, the solver
returns `Rb = 0`, while the moment of the load about `A = 0` is `-6`. -/
theorem C2_couple_counterexample :
    ∃ Ra Rb : Reaction, calculateReactions coupleApp = Solution.reactions [Ra, Rb] ∧
      Ra.x = 0 ∧ Rb.x = 10 ∧ Rb.value = 0 ∧ ¬ MomentClosure coupleApp Ra Rb := by
  refine ⟨⟨0, 0, "Ra"⟩, ⟨10, 0, "Rb"⟩, ?_, rfl, rfl, rfl, ?_⟩
  · rw [calculateReactions_two coupleApp ⟨0, "pin"⟩ ⟨10, "roller"⟩ rfl (by norm_num)]
    norm_num [totalLoad, sumMomentAbout, coupleApp, resultant, centroidDistFromLoadStart]
  · unfold MomentClosure
    simp only [coupleApp, List.map_cons, List.map_nil, List.sum_cons, List.sum_nil]
    rw [← trueMoment_eq_integral ⟨0, 6, 1, -1⟩ 0, couple_moment.2]
    norm_num

/-! ## Distributed-load contribution to the shear -/

theorem loadShearStep_eq (x shear : ℚ) (l : Load) :
    loadShearStep x shear l = shear - loadShearAmount x l := by
  unfold loadShearStep loadShearAmount
  split_ifs <;> simp

theorem loadShearAmount_of_le (x : ℚ) (l : Load) (h : min x l.end_ ≤ max 0 l.start) :
    loadShearAmount x l = 0 := by
  have : loadBranch x l = false := by
    simp only [loadBranch, gt_iff_lt, decide_eq_false_iff_not, not_lt]
    exact h
  simp [loadShearAmount, this]

theorem loadShearAmount_of_lt (x : ℚ) (l : Load) (h : max 0 l.start < min x l.end_) :
    loadShearAmount x l =
      l.startMagnitude * (min x l.end_ - l.start)
        + ((l.endMagnitude - l.startMagnitude) / (l.end_ - l.start))
            * (min x l.end_ - l.start) ^ 2 / 2 := by
  have : loadBranch x l = true := by
    simp only [loadBranch, gt_iff_lt, decide_eq_true_eq]
    exact h
  simp only [loadShearAmount, this, if_true, loadContrib]
  ring

/-- The amount subtracted for one load, case by case: the loop body subtracts
`loadShearAmount`, which is `0` when `min(x, end) ≤ max(0, start)` (in
particular for every zero-length load, whose branch is never taken, and for
every `x` at or before `start`) and otherwise is
`w1*x_local + ((w2 - w1)/(end - start)) * x_local^2 / 2` with
`x_local = min(x, end) - start` and a non-zero divisor; when
`max(0, start) < end` it is the full resultant for every `x` at or beyond
`end`. -/
theorem loadShearAmount_cases (l : Load) (x : ℚ) :
    (∀ shear, loadShearStep x shear l = shear - loadShearAmount x l) ∧
    (min x l.end_ ≤ max 0 l.start → loadShearAmount x l = 0) ∧
    (max 0 l.start < min x l.end_ →
      l.end_ - l.start ≠ 0 ∧
      loadShearAmount x l =
        l.startMagnitude * (min x l.end_ - l.start)
          + ((l.endMagnitude - l.startMagnitude) / (l.end_ - l.start))
              * (min x l.end_ - l.start) ^ 2 / 2) ∧
    (l.start = l.end_ → loadBranch x l = false ∧ loadShearAmount x l = 0) ∧
    (x ≤ l.start → loadShearAmount x l = 0) ∧
    (max 0 l.start < l.end_ → l.end_ ≤ x →
      loadShearAmount x l
        = (l.startMagnitude + l.endMagnitude) / 2 * (l.end_ - l.start)) := by
  refine ⟨fun shear => loadShearStep_eq x shear l, loadShearAmount_of_le x l, ?_, ?_, ?_, ?_⟩
  · intro h
    refine ⟨?_, loadShearAmount_of_lt x l h⟩
    have h1 : l.start < l.end_ :=
      lt_of_le_of_lt (le_max_right 0 l.start) (lt_of_lt_of_le h (min_le_right x l.end_))
    linarith
  · intro h
    have hm : min x l.end_ ≤ max 0 l.start :=
      le_trans (min_le_right x l.end_) (h ▸ le_max_right 0 l.start)
    refine ⟨?_, loadShearAmount_of_le x l hm⟩
    simp only [loadBranch, gt_iff_lt, decide_eq_false_iff_not, not_lt]
    exact hm
  · intro h
    exact loadShearAmount_of_le x l
      (le_trans (min_le_left x l.end_) (le_trans h (le_max_right 0 l.start)))
  · intro hlt h
    have hmin : min x l.end_ = l.end_ := min_eq_right h
    have hse : l.start < l.end_ := lt_of_le_of_lt (le_max_right 0 l.start) hlt
    rw [loadShearAmount_of_lt x l (by rw [hmin]; exact hlt), hmin]
    have hd : l.end_ - l.start ≠ 0 := by linarith
    field_simp
    ring

/-! ## Moment integration -/

theorem momentLoop_map_x (p : Sample) (a : ℚ) (rest : List Sample) :
    (momentLoop p a rest).map (fun q => q.x) = rest.map (fun q => q.x) := by
  induction rest generalizing p a with
  | nil => rfl
  | cons r rs ih => simp [momentLoop, ih]

theorem momentLoop_length (p : Sample) (a : ℚ) (rest : List Sample) :
    (momentLoop p a rest).length = rest.length := by
  have := congrArg List.length (momentLoop_map_x p a rest)
  simpa using this

/-- The recurrence of the integration loop, started from any previous sample
`p` and any running moment `a`. -/
theorem momentLoop_step (i : ℕ) : ∀ (p : Sample) (a : ℚ) (rest : List Sample) (q r : Sample),
    (p :: rest)[i]? = some q → (p :: rest)[i + 1]? = some r →
    ∃ b : ℚ, ((⟨p.x, a⟩ : Sample) :: momentLoop p a rest)[i]? = some ⟨q.x, b⟩ ∧
      ((⟨p.x, a⟩ : Sample) :: momentLoop p a rest)[i + 1]?
        = some ⟨r.x, b + (q.v + r.v) / 2 * (r.x - q.x)⟩ := by
  induction i with
  | zero =>
    intro p a rest q r hq hr
    cases rest with
    | nil => simp at hr
    | cons r' rs =>
      simp only [List.getElem?_cons_zero, Option.some.injEq] at hq
      simp only [List.getElem?_cons_succ, List.getElem?_cons_zero, Option.some.injEq,
        zero_add] at hr
      subst hq hr
      exact ⟨a, by simp, by simp [momentLoop]⟩
  | succ n ih =>
    intro p a rest q r hq hr
    cases rest with
    | nil => simp at hq
    | cons p' rs =>
      rw [List.getElem?_cons_succ] at hq hr
      obtain ⟨b, hb1, hb2⟩ := ih p' (a + (p.v + p'.v) / 2 * (p'.x - p.x)) rs q r hq hr
      refine ⟨b, ?_, ?_⟩
      · simpa only [List.getElem?_cons_succ, momentLoop] using hb1
      · simpa only [List.getElem?_cons_succ, momentLoop] using hb2

/-- The moment sequence exists for a non-empty shear sequence and starts with
the value `0` at the first position. -/
theorem calculateBendingMoment_cons (p0 : Sample) (rest : List Sample) :
    calculateBendingMoment (p0 :: rest) = some (⟨p0.x, 0⟩ :: momentLoop p0 0 rest) := rfl

/-- The recurrence between consecutive moment samples. -/
theorem calculateBendingMoment_step (s m : List Sample) (hm : calculateBendingMoment s = some m)
    (i : ℕ) (q r : Sample) (hq : s[i]? = some q) (hr : s[i + 1]? = some r) :
    ∃ b : ℚ, m[i]? = some ⟨q.x, b⟩ ∧
      m[i + 1]? = some ⟨r.x, b + (q.v + r.v) / 2 * (r.x - q.x)⟩ := by
  cases s with
  | nil => simp at hq
  | cons p0 rest =>
    rw [calculateBendingMoment_cons, Option.some.injEq] at hm
    subst hm
    exact momentLoop_step i p0 0 rest q r hq hr

/-- C4 (moment integration): for a non-empty shear sequence `s`,
`calculateBendingMoment s` is a sequence of the same length with the same
position at every index, value `0` at index `0`, and value at `i + 1` equal to
the value at `i` plus `(s[i].v + s[i+1].v)/2 * (s[i+1].x - s[i].x)`. -/
theorem C4_moment_integration (s : List Sample) (hs : s ≠ []) :
    ∃ m : List Sample, calculateBendingMoment s = some m ∧
      m.length = s.length ∧
      (∀ (i : ℕ) (p : Sample), s[i]? = some p → ∃ q : Sample, m[i]? = some q ∧ q.x = p.x) ∧
      (∃ q : Sample, m[0]? = some q ∧ q.v = 0) ∧
      (∀ (i : ℕ) (p1 p2 : Sample), s[i]? = some p1 → s[i + 1]? = some p2 →
        ∃ a b : Sample, m[i]? = some a ∧ m[i + 1]? = some b ∧
          b.v = a.v + (p1.v + p2.v) / 2 * (p2.x - p1.x)) := by
  cases s with
  | nil => exact absurd rfl hs
  | cons p0 rest =>
    refine ⟨_, calculateBendingMoment_cons p0 rest, ?_, ?_, ⟨⟨p0.x, 0⟩, by simp, rfl⟩, ?_⟩
    · simp [momentLoop_length]
    · intro i p hp
      have hx : ((⟨p0.x, 0⟩ : Sample) :: momentLoop p0 0 rest).map (fun q => q.x)
          = (p0 :: rest).map (fun q => q.x) := by
        simp [momentLoop_map_x]
      have h1 := congrArg (fun l : List ℚ => l[i]?) hx
      simp only [List.getElem?_map, hp, Option.map_some'] at h1
      cases hq : ((⟨p0.x, 0⟩ : Sample) :: momentLoop p0 0 rest)[i]? with
      | none => rw [hq] at h1; simp at h1
      | some q =>
        rw [hq] at h1
        simp only [Option.map_some', Option.some.injEq] at h1
        exact ⟨q, rfl, h1⟩
    · intro i p1 p2 h1 h2
      obtain ⟨b, hb1, hb2⟩ := momentLoop_step i p0 0 rest p1 p2 h1 h2
      exact ⟨_, _, hb1, hb2, rfl⟩

theorem C4_moment_integration_witness :
    ([⟨0, 2⟩, ⟨1, 4⟩, ⟨3, -2⟩] : List Sample) ≠ [] ∧
    ∃ m : List Sample, calculateBendingMoment [⟨0, 2⟩, ⟨1, 4⟩, ⟨3, -2⟩] = some m ∧
      m.length = ([⟨0, 2⟩, ⟨1, 4⟩, ⟨3, -2⟩] : List Sample).length ∧
      (∀ (i : ℕ) (p : Sample), ([⟨0, 2⟩, ⟨1, 4⟩, ⟨3, -2⟩] : List Sample)[i]? = some p →
        ∃ q : Sample, m[i]? = some q ∧ q.x = p.x) ∧
      (∃ q : Sample, m[0]? = some q ∧ q.v = 0) ∧
      (∀ (i : ℕ) (p1 p2 : Sample), ([⟨0, 2⟩, ⟨1, 4⟩, ⟨3, -2⟩] : List Sample)[i]? = some p1 →
        ([⟨0, 2⟩, ⟨1, 4⟩, ⟨3, -2⟩] : List Sample)[i + 1]? = some p2 →
        ∃ a b : Sample, m[i]? = some a ∧ m[i + 1]? = some b ∧
          b.v = a.v + (p1.v + p2.v) / 2 * (p2.x - p1.x)) :=
  ⟨by simp, C4_moment_integration [⟨0, 2⟩, ⟨1, 4⟩, ⟨3, -2⟩] (by simp)⟩

/-! ## Error conditions of the reaction solver -/

/-- C5 (error conditions are exact): the count error is returned exactly when
the number of supports is not two, the same-location error exactly when
there are two supports with equal positions, and otherwise the result is two
reactions, `Ra` at the lower and `Rb` at the higher support position, the
same whichever order the two supports are given in. -/
theorem C5_error_conditions (app : App) :
    (calculateReactions app = Solution.error "Please ensure exactly 2 supports."
        ↔ app.supports.length ≠ 2) ∧
    (calculateReactions app = Solution.error "Supports cannot be at the same location."
        ↔ ∃ s1 s2, app.supports = [s1, s2] ∧ s1.x = s2.x) ∧
    (∀ s1 s2, app.supports = [s1, s2] → s1.x ≠ s2.x →
      (∃ Ra Rb : ℚ, calculateReactions app = Solution.reactions
          [⟨min s1.x s2.x, Ra, "Ra"⟩, ⟨max s1.x s2.x, Rb, "Rb"⟩]) ∧
      calculateReactions { app with supports := [s2, s1] } = calculateReactions app) := by
  refine ⟨?_, ?_, ?_⟩
  · constructor
    · intro h hlen
      obtain ⟨s1, s2, hs⟩ : ∃ s1 s2, app.supports = [s1, s2] := by
        match hsup : app.supports, hlen with
        | [a, b], _ => exact ⟨a, b, rfl⟩
      by_cases hx : s1.x = s2.x
      · rw [calculateReactions_same app s1 s2 hs hx] at h
        simp at h
      · rw [calculateReactions_two app s1 s2 hs hx] at h
        simp at h
    · exact calculateReactions_count app
  · constructor
    · intro h
      by_cases hlen : app.supports.length = 2
      · obtain ⟨s1, s2, hs⟩ : ∃ s1 s2, app.supports = [s1, s2] := by
          match hsup : app.supports, hlen with
          | [a, b], _ => exact ⟨a, b, rfl⟩
        refine ⟨s1, s2, hs, ?_⟩
        by_contra hx
        rw [calculateReactions_two app s1 s2 hs hx] at h
        simp at h
      · rw [calculateReactions_count app hlen] at h
        simp at h
    · rintro ⟨s1, s2, hs, hx⟩
      exact calculateReactions_same app s1 s2 hs hx
  · intro s1 s2 hs hx
    refine ⟨⟨_, _, calculateReactions_two app s1 s2 hs hx⟩, ?_⟩
    rw [calculateReactions_two app s1 s2 hs hx,
      calculateReactions_two { app with supports := [s2, s1] } s2 s1 rfl (Ne.symm hx)]
    simp only [totalLoad, sumMomentAbout, min_comm s2.x s1.x, max_comm s2.x s1.x]

theorem C5_error_conditions_witness :
    sampleApp.supports = [⟨8, "roller"⟩, ⟨2, "pin"⟩] ∧ (8 : ℚ) ≠ 2 ∧
    (∃ Ra Rb : ℚ, calculateReactions sampleApp = Solution.reactions
        [⟨min 8 2, Ra, "Ra"⟩, ⟨max 8 2, Rb, "Rb"⟩]) ∧
    calculateReactions { sampleApp with supports := [⟨2, "pin"⟩, ⟨8, "roller"⟩] }
      = calculateReactions sampleApp :=
  ⟨rfl, by norm_num,
    (C5_error_conditions sampleApp).2.2 ⟨8, "roller"⟩ ⟨2, "pin"⟩ rfl (by norm_num)⟩

/-! ## Critical points: shape of the result -/

theorem zeroCrossing_label (p1 p2 : Sample) (z : Point) (h : zeroCrossing p1 p2 = some z) :
    z.label = "0" ∧ z.v = 0 := by
  simp only [zeroCrossing] at h
  split_ifs at h
  · rw [Option.some.injEq] at h; subst h; exact ⟨rfl, rfl⟩
  · rw [Option.some.injEq] at h; subst h; exact ⟨rfl, rfl⟩

theorem zeroPoints_cons_cons (p1 p2 : Sample) (rest : List Sample) :
    zeroPoints (p1 :: p2 :: rest) =
      (match zeroCrossing p1 p2 with
        | some z => z :: zeroPoints (p2 :: rest)
        | none => zeroPoints (p2 :: rest)) := by
  simp only [zeroPoints, List.tail_cons, List.zip_cons_cons, List.filterMap_cons]
  cases zeroCrossing p1 p2 <;> rfl

theorem zeroPoints_single (p : Sample) : zeroPoints [p] = [] := rfl

theorem zeroLoop_eq (rest : List Sample) : ∀ (p : Sample) (pts : List Point),
    zeroLoop p rest pts = pts ++ zeroPoints (p :: rest) := by
  induction rest with
  | nil => intro p pts; simp [zeroLoop, zeroPoints_single]
  | cons p2 rs ih =>
    intro p pts
    rw [zeroPoints_cons_cons]
    unfold zeroLoop
    cases zeroCrossing p p2 with
    | none => simp only [ih]
    | some z => simp only [ih, List.append_assoc, List.singleton_append]

theorem zeroPoints_label (data : List Sample) :
    ∀ z ∈ zeroPoints data, z.label = "0" ∧ z.v = 0 := by
  intro z hz
  simp only [zeroPoints, List.mem_filterMap] at hz
  obtain ⟨pq, _, h⟩ := hz
  exact zeroCrossing_label pq.1 pq.2 z h

theorem foldl_maxStep_some (data : List Sample) : ∀ m : ℚ,
    ∃ M : ℚ, data.foldl maxStep (some m) = some M ∧ m ≤ M ∧ (∀ q ∈ data, q.v ≤ M) ∧
      (M = m ∨ ∃ q ∈ data, q.v = M) := by
  induction data with
  | nil => intro m; exact ⟨m, rfl, le_refl m, by simp, Or.inl rfl⟩
  | cons d ds ih =>
    intro m
    rw [List.foldl_cons]
    by_cases h : d.v > m
    · obtain ⟨M, hM, hle, hall, hex⟩ := ih d.v
      refine ⟨M, by simpa [maxStep, h] using hM, le_trans h.le hle, ?_, ?_⟩
      · intro q hq
        rcases List.mem_cons.mp hq with rfl | hq
        · exact hle
        · exact hall q hq
      · rcases hex with rfl | ⟨q, hq, hqv⟩
        · exact Or.inr ⟨d, List.mem_cons_self _ _, rfl⟩
        · exact Or.inr ⟨q, List.mem_cons_of_mem _ hq, hqv⟩
    · obtain ⟨M, hM, hle, hall, hex⟩ := ih m
      refine ⟨M, by simpa [maxStep, h] using hM, hle, ?_, ?_⟩
      · intro q hq
        rcases List.mem_cons.mp hq with rfl | hq
        · exact le_trans (not_lt.mp h) hle
        · exact hall q hq
      · rcases hex with rfl | ⟨q, hq, hqv⟩
        · exact Or.inl rfl
        · exact Or.inr ⟨q, List.mem_cons_of_mem _ hq, hqv⟩

theorem foldl_minStep_some (data : List Sample) : ∀ m : ℚ,
    ∃ M : ℚ, data.foldl minStep (some m) = some M ∧ M ≤ m ∧ (∀ q ∈ data, M ≤ q.v) ∧
      (M = m ∨ ∃ q ∈ data, q.v = M) := by
  induction data with
  | nil => intro m; exact ⟨m, rfl, le_refl m, by simp, Or.inl rfl⟩
  | cons d ds ih =>
    intro m
    rw [List.foldl_cons]
    by_cases h : d.v < m
    · obtain ⟨M, hM, hle, hall, hex⟩ := ih d.v
      refine ⟨M, by simpa [minStep, h] using hM, le_trans hle h.le, ?_, ?_⟩
      · intro q hq
        rcases List.mem_cons.mp hq with rfl | hq
        · exact hle
        · exact hall q hq
      · rcases hex with rfl | ⟨q, hq, hqv⟩
        · exact Or.inr ⟨d, List.mem_cons_self _ _, rfl⟩
        · exact Or.inr ⟨q, List.mem_cons_of_mem _ hq, hqv⟩
    · obtain ⟨M, hM, hle, hall, hex⟩ := ih m
      refine ⟨M, by simpa [minStep, h] using hM, hle, ?_, ?_⟩
      · intro q hq
        rcases List.mem_cons.mp hq with rfl | hq
        · exact le_trans hle (not_lt.mp h)
        · exact hall q hq
      · rcases hex with rfl | ⟨q, hq, hqv⟩
        · exact Or.inl rfl
        · exact Or.inr ⟨q, List.mem_cons_of_mem _ hq, hqv⟩

/-- On a non-empty sequence the extrema scan and the `find` return the first
sample attaining the maximum. -/
theorem find_globalMax (d0 : Sample) (rest : List Sample) :
    ∃ pmax : Sample,
      (d0 :: rest).find? (fun p => decide (some p.v = (d0 :: rest).foldl maxStep none))
        = some pmax ∧ FirstMax (d0 :: rest) pmax := by
  obtain ⟨M, hM, hle, hall, hex⟩ := foldl_maxStep_some rest d0.v
  have hfold : (d0 :: rest).foldl maxStep none = some M := by
    rw [List.foldl_cons]; exact hM
  have hall' : ∀ q ∈ d0 :: rest, q.v ≤ M := by
    intro q hq
    rcases List.mem_cons.mp hq with rfl | hq
    · exact hle
    · exact hall q hq
  have hex' : ∃ q ∈ d0 :: rest, q.v = M := by
    rcases hex with h | ⟨q, hq, hqv⟩
    · exact ⟨d0, List.mem_cons_self _ _, h.symm⟩
    · exact ⟨q, List.mem_cons_of_mem _ hq, hqv⟩
  rw [hfold]
  cases hf : (d0 :: rest).find? (fun p => decide (some p.v = some M)) with
  | none =>
    rw [List.find?_eq_none] at hf
    obtain ⟨q, hq, hqv⟩ := hex'
    exact absurd (by simp [hqv]) (hf q hq)
  | some pmax =>
    refine ⟨pmax, rfl, ?_⟩
    rw [List.find?_eq_some] at hf
    obtain ⟨hp, pre, post, hdata, hpre⟩ := hf
    have hpv : pmax.v = M := by simpa using hp
    refine ⟨pre, post, hdata, ?_, ?_⟩
    · intro q hq
      have hne : q.v ≠ M := by simpa using hpre q hq
      have hql : q.v ≤ M := hall' q (by rw [hdata]; exact List.mem_append_left _ hq)
      rw [hpv]
      exact lt_of_le_of_ne hql hne
    · intro q hq
      rw [hpv]
      exact hall' q (by rw [hdata]; exact List.mem_append_right _ (List.mem_cons_of_mem _ hq))

/-- On a non-empty sequence the extrema scan and the `find` return the first
sample attaining the minimum. -/
theorem find_globalMin (d0 : Sample) (rest : List Sample) :
    ∃ pmin : Sample,
      (d0 :: rest).find? (fun p => decide (some p.v = (d0 :: rest).foldl minStep none))
        = some pmin ∧ FirstMin (d0 :: rest) pmin := by
  obtain ⟨M, hM, hle, hall, hex⟩ := foldl_minStep_some rest d0.v
  have hfold : (d0 :: rest).foldl minStep none = some M := by
    rw [List.foldl_cons]; exact hM
  have hall' : ∀ q ∈ d0 :: rest, M ≤ q.v := by
    intro q hq
    rcases List.mem_cons.mp hq with rfl | hq
    · exact hle
    · exact hall q hq
  have hex' : ∃ q ∈ d0 :: rest, q.v = M := by
    rcases hex with h | ⟨q, hq, hqv⟩
    · exact ⟨d0, List.mem_cons_self _ _, h.symm⟩
    · exact ⟨q, List.mem_cons_of_mem _ hq, hqv⟩
  rw [hfold]
  cases hf : (d0 :: rest).find? (fun p => decide (some p.v = some M)) with
  | none =>
    rw [List.find?_eq_none] at hf
    obtain ⟨q, hq, hqv⟩ := hex'
    exact absurd (by simp [hqv]) (hf q hq)
  | some pmin =>
    refine ⟨pmin, rfl, ?_⟩
    rw [List.find?_eq_some] at hf
    obtain ⟨hp, pre, post, hdata, hpre⟩ := hf
    have hpv : pmin.v = M := by simpa using hp
    refine ⟨pre, post, hdata, ?_, ?_⟩
    · intro q hq
      have hne : q.v ≠ M := by simpa using hpre q hq
      have hql : M ≤ q.v := hall' q (by rw [hdata]; exact List.mem_append_left _ hq)
      rw [hpv]
      exact lt_of_le_of_ne hql (Ne.symm hne)
    · intro q hq
      rw [hpv]
      exact hall' q (by rw [hdata]; exact List.mem_append_right _ (List.mem_cons_of_mem _ hq))

theorem addIfNotExists_near (pts : List Point) (p : Sample) (label : String)
    (h : Near pts p.x) : addIfNotExists pts p label = pts := by
  have : pts.any (fun ex => decide (|ex.x - p.x| < 1 / 100)) = true := by
    rw [List.any_eq_true]
    obtain ⟨e, he, hlt⟩ := h
    exact ⟨e, he, by simpa using hlt⟩
  unfold addIfNotExists
  rw [if_pos this]

theorem addIfNotExists_far (pts : List Point) (p : Sample) (label : String)
    (h : ¬ Near pts p.x) : addIfNotExists pts p label = pts ++ [⟨p.x, p.v, label⟩] := by
  have : ¬ (pts.any (fun ex => decide (|ex.x - p.x| < 1 / 100)) = true) := by
    rw [List.any_eq_true]
    rintro ⟨e, he, hlt⟩
    exact h ⟨e, he, by simpa using hlt⟩
  unfold addIfNotExists
  rw [if_neg this]

/-- The result of `findSpecialPoints` on a sequence of at least two samples, in
terms of the zero-crossing points and the two guarded additions. -/
theorem findSpecialPoints_eq (d0 d1 : Sample) (rest : List Sample) :
    ∃ pmax pmin : Sample, FirstMax (d0 :: d1 :: rest) pmax ∧ FirstMin (d0 :: d1 :: rest) pmin ∧
      findSpecialPoints (d0 :: d1 :: rest) =
        addIfNotExists
          (addIfNotExists
            ([⟨d0.x, d0.v, "Start"⟩,
              ⟨((d1 :: rest).getLast (List.cons_ne_nil d1 rest)).x,
                ((d1 :: rest).getLast (List.cons_ne_nil d1 rest)).v, "End"⟩]
              ++ zeroPoints (d0 :: d1 :: rest))
            pmax "Max")
          pmin "Min" := by
  obtain ⟨pmax, hmaxf, hmax⟩ := find_globalMax d0 (d1 :: rest)
  obtain ⟨pmin, hminf, hmin⟩ := find_globalMin d0 (d1 :: rest)
  refine ⟨pmax, pmin, hmax, hmin, ?_⟩
  simp only [findSpecialPoints, hmaxf, hminf, addFound, zeroLoop_eq]

/-- C6 (shape of the critical-point list): on fewer than two samples the
result is empty; on at least two samples it is, in this order, the first
sample labelled `Start`, the last sample labelled `End`, the zero-crossing
points (label `0`, value `0`) in sample order, the first sample attaining
the maximum labelled `Max` unless an already collected point lies within
`0.01` of its position, and the first sample attaining the minimum labelled
`Min` unless an already collected point (a just-added `Max` included) lies
within `0.01` of its position. -/
theorem C6_special_points_shape (data : List Sample) :
    (data.length < 2 → findSpecialPoints data = []) ∧
    (2 ≤ data.length →
      ∃ (first last pmax pmin : Sample) (mx mn : List Point),
        data.head? = some first ∧ data.getLast? = some last ∧
        FirstMax data pmax ∧ FirstMin data pmin ∧
        findSpecialPoints data =
          [⟨first.x, first.v, "Start"⟩, ⟨last.x, last.v, "End"⟩]
            ++ zeroPoints data ++ mx ++ mn ∧
        (∀ z ∈ zeroPoints data, z.label = "0" ∧ z.v = 0) ∧
        (Near ([⟨first.x, first.v, "Start"⟩, ⟨last.x, last.v, "End"⟩] ++ zeroPoints data)
            pmax.x → mx = []) ∧
        (¬ Near ([⟨first.x, first.v, "Start"⟩, ⟨last.x, last.v, "End"⟩] ++ zeroPoints data)
            pmax.x → mx = [⟨pmax.x, pmax.v, "Max"⟩]) ∧
        (Near ([⟨first.x, first.v, "Start"⟩, ⟨last.x, last.v, "End"⟩] ++ zeroPoints data
            ++ mx) pmin.x → mn = []) ∧
        (¬ Near ([⟨first.x, first.v, "Start"⟩, ⟨last.x, last.v, "End"⟩] ++ zeroPoints data
            ++ mx) pmin.x → mn = [⟨pmin.x, pmin.v, "Min"⟩])) := by
  constructor
  · intro h
    match data, h with
    | [], _ => rfl
    | [_], _ => rfl
  · intro h
    match data, h with
    | d0 :: d1 :: rest, _ =>
      obtain ⟨pmax, pmin, hmax, hmin, heq⟩ := findSpecialPoints_eq d0 d1 rest
      have hlast : (d0 :: d1 :: rest).getLast?
          = some ((d1 :: rest).getLast (List.cons_ne_nil d1 rest)) := by
        rw [List.getLast?_eq_getLast _ (List.cons_ne_nil _ _),
          List.getLast_cons (List.cons_ne_nil d1 rest)]
      by_cases hn1 : Near ([⟨d0.x, d0.v, "Start"⟩,
          ⟨((d1 :: rest).getLast (List.cons_ne_nil d1 rest)).x,
            ((d1 :: rest).getLast (List.cons_ne_nil d1 rest)).v, "End"⟩]
          ++ zeroPoints (d0 :: d1 :: rest)) pmax.x
      · rw [addIfNotExists_near _ pmax "Max" hn1] at heq
        by_cases hn2 : Near ([⟨d0.x, d0.v, "Start"⟩,
            ⟨((d1 :: rest).getLast (List.cons_ne_nil d1 rest)).x,
              ((d1 :: rest).getLast (List.cons_ne_nil d1 rest)).v, "End"⟩]
            ++ zeroPoints (d0 :: d1 :: rest)) pmin.x
        · rw [addIfNotExists_near _ pmin "Min" hn2] at heq
          refine ⟨d0, _, pmax, pmin, [], [], rfl, hlast, hmax, hmin, ?_,
            zeroPoints_label _, fun _ => rfl, fun h => absurd hn1 h, fun _ => rfl, ?_⟩
          · simpa using heq
          · intro h; exact absurd (by simpa using hn2) h
        · rw [addIfNotExists_far _ pmin "Min" hn2] at heq
          refine ⟨d0, _, pmax, pmin, [], [⟨pmin.x, pmin.v, "Min"⟩], rfl, hlast, hmax, hmin, ?_,
            zeroPoints_label _, fun _ => rfl, fun h => absurd hn1 h, ?_, fun _ => rfl⟩
          · simpa using heq
          · intro h; exact absurd (by simpa using h) hn2
      · rw [addIfNotExists_far _ pmax "Max" hn1] at heq
        by_cases hn2 : Near ([⟨d0.x, d0.v, "Start"⟩,
            ⟨((d1 :: rest).getLast (List.cons_ne_nil d1 rest)).x,
              ((d1 :: rest).getLast (List.cons_ne_nil d1 rest)).v, "End"⟩]
            ++ zeroPoints (d0 :: d1 :: rest) ++ [⟨pmax.x, pmax.v, "Max"⟩]) pmin.x
        · rw [addIfNotExists_near _ pmin "Min" hn2] at heq
          refine ⟨d0, _, pmax, pmin, [⟨pmax.x, pmax.v, "Max"⟩], [], rfl, hlast, hmax, hmin, ?_,
            zeroPoints_label _, fun h => absurd h hn1, fun _ => rfl, fun _ => rfl, ?_⟩
          · simpa using heq
          · intro h; exact absurd hn2 h
        · rw [addIfNotExists_far _ pmin "Min" hn2] at heq
          refine ⟨d0, _, pmax, pmin, [⟨pmax.x, pmax.v, "Max"⟩], [⟨pmin.x, pmin.v, "Min"⟩],
            rfl, hlast, hmax, hmin, heq, zeroPoints_label _, fun h => absurd h hn1,
            fun _ => rfl, fun h => absurd h hn2, fun _ => rfl⟩

theorem C6_special_points_shape_witness :
    (([⟨0, 1⟩] : List Sample).length < 2 ∧ findSpecialPoints [⟨0, 1⟩] = []) ∧
    (2 ≤ ([⟨0, -1⟩, ⟨1, 3⟩, ⟨2, 1⟩] : List Sample).length ∧
      findSpecialPoints [⟨0, -1⟩, ⟨1, 3⟩, ⟨2, 1⟩] ≠ []) :=
  ⟨⟨by decide, (C6_special_points_shape [⟨0, 1⟩]).1 (by decide)⟩,
    ⟨by decide, by
      obtain ⟨first, last, pmax, pmin, mx, mn, _, _, _, _, heq, _⟩ :=
        (C6_special_points_shape [⟨0, -1⟩, ⟨1, 3⟩, ⟨2, 1⟩]).2 (by decide)
      rw [heq]
      simp⟩⟩

/-! ## Critical points: zero crossings -/

theorem zeroLabelled_addIfNotExists (pts : List Point) (p : Sample) (label : String)
    (hl : label ≠ "0") :
    zeroLabelled (addIfNotExists pts p label) = zeroLabelled pts := by
  unfold addIfNotExists
  split_ifs
  · rfl
  · simp [zeroLabelled, List.filter_append, hl]

/-- The points labelled `0` in the result are exactly the zero-crossing
points. -/
theorem zeroLabelled_findSpecialPoints (d0 d1 : Sample) (rest : List Sample) :
    zeroLabelled (findSpecialPoints (d0 :: d1 :: rest)) = zeroPoints (d0 :: d1 :: rest) := by
  obtain ⟨pmax, pmin, _, _, heq⟩ := findSpecialPoints_eq d0 d1 rest
  rw [heq, zeroLabelled_addIfNotExists _ _ _ (by decide),
    zeroLabelled_addIfNotExists _ _ _ (by decide)]
  simp only [zeroLabelled, List.filter_append]
  have h1 : List.filter (fun p : Point => decide (p.label = "0"))
      (zeroPoints (d0 :: d1 :: rest)) = zeroPoints (d0 :: d1 :: rest) := by
    rw [List.filter_eq_self]
    intro z hz
    simpa using (zeroPoints_label _ z hz).1
  rw [h1]
  simp [List.filter_cons]

theorem zeroCrossing_neg_neg (p1 p2 : Sample) (h1 : p1.v < 0) (h2 : p2.v < 0) :
    zeroCrossing p1 p2 = none := by
  have hc : ¬ ((p1.v ≥ 0 ∧ p2.v < 0) ∨ (p1.v < 0 ∧ p2.v ≥ 0)) := by
    rintro (⟨h, _⟩ | ⟨_, h⟩) <;> linarith
  simp only [zeroCrossing, hc, if_false]

theorem zeroCrossing_nonneg_nonneg (p1 p2 : Sample) (h1 : 0 ≤ p1.v) (h2 : 0 ≤ p2.v) :
    zeroCrossing p1 p2 = none := by
  have hc : ¬ ((p1.v ≥ 0 ∧ p2.v < 0) ∨ (p1.v < 0 ∧ p2.v ≥ 0)) := by
    rintro (⟨_, h⟩ | ⟨h, _⟩) <;> linarith
  simp only [zeroCrossing, hc, if_false]

/-- A sequence of non-negative values has no zero-crossing point. -/
theorem zeroPoints_nonneg (data : List Sample) (h : ∀ q ∈ data, 0 ≤ q.v) :
    zeroPoints data = [] := by
  induction data with
  | nil => rfl
  | cons p rest ih =>
    cases rest with
    | nil => rfl
    | cons r rs =>
      rw [zeroPoints_cons_cons,
        zeroCrossing_nonneg_nonneg p r (h p (List.mem_cons_self _ _))
          (h r (List.mem_cons_of_mem _ (List.mem_cons_self _ _)))]
      exact ih (fun q hq => h q (List.mem_cons_of_mem _ hq))

/-- The zero-crossing points of a sequence that is negative up to `p1` and
non-negative from `p2` on come from the pair `(p1, p2)` alone. -/
theorem zeroPoints_split (pre post : List Sample) (p1 p2 : Sample)
    (hpre : ∀ q ∈ pre, q.v < 0) (h1 : p1.v < 0) (h2 : 0 ≤ p2.v)
    (hpost : ∀ q ∈ post, 0 ≤ q.v) :
    zeroPoints (pre ++ p1 :: p2 :: post) = (zeroCrossing p1 p2).toList := by
  induction pre with
  | nil =>
    have hz : zeroPoints (p2 :: post) = [] := by
      apply zeroPoints_nonneg
      intro q hq
      rcases List.mem_cons.mp hq with rfl | hq
      · exact h2
      · exact hpost q hq
    rw [List.nil_append, zeroPoints_cons_cons, hz]
    cases zeroCrossing p1 p2 <;> rfl
  | cons c cs ih =>
    have hc : c.v < 0 := hpre c (List.mem_cons_self _ _)
    have ih' := ih (fun q hq => hpre q (List.mem_cons_of_mem _ hq))
    cases cs with
    | nil =>
      rw [List.nil_append] at ih'
      show zeroPoints (c :: p1 :: p2 :: post) = _
      rw [zeroPoints_cons_cons, zeroCrossing_neg_neg c p1 hc h1]
      exact ih'
    | cons c' cs' =>
      have hc' : c'.v < 0 := hpre c' (List.mem_cons_of_mem _ (List.mem_cons_self _ _))
      show zeroPoints (c :: c' :: (cs' ++ p1 :: p2 :: post)) = _
      rw [zeroPoints_cons_cons, zeroCrossing_neg_neg c c' hc hc']
      exact ih'

/-- The point pushed for a pair rising through zero over a positive step with
slope above `1e-9`. -/
theorem zeroCrossing_rising (p1 p2 : Sample) (h1 : p1.v < 0) (h2 : 0 ≤ p2.v)
    (hx : p1.x < p2.x) (hs : 1 / 10 ^ 9 < (p2.v - p1.v) / (p2.x - p1.x)) :
    zeroCrossing p1 p2 = some ⟨interpolatedRoot p1 p2, 0, "0"⟩ := by
  have hc : (p1.v ≥ 0 ∧ p2.v < 0) ∨ (p1.v < 0 ∧ p2.v ≥ 0) := Or.inr ⟨h1, h2⟩
  have hdx : ¬ (p2.x - p1.x = 0) := by
    intro h; linarith
  have hpos : (0 : ℚ) < (p2.v - p1.v) / (p2.x - p1.x) := lt_trans (by norm_num) hs
  have habs : |(p2.v - p1.v) / (p2.x - p1.x)| > 1 / 10 ^ 9 := by
    rw [abs_of_pos hpos]; exact hs
  simp only [zeroCrossing, hc, hdx, habs, if_true, if_false, interpolatedRoot]
  have hdv : p2.v - p1.v ≠ 0 := by
    intro h; linarith
  have hdx' : p2.x - p1.x ≠ 0 := hdx
  congr 2
  field_simp

/-- The point is not pushed when the slope of the rising pair is at most
`1e-9`. -/
theorem zeroCrossing_shallow (p1 p2 : Sample) (h1 : p1.v < 0) (h2 : 0 ≤ p2.v)
    (hx : p1.x < p2.x) (hs : (p2.v - p1.v) / (p2.x - p1.x) ≤ 1 / 10 ^ 9) :
    zeroCrossing p1 p2 = none := by
  have hc : (p1.v ≥ 0 ∧ p2.v < 0) ∨ (p1.v < 0 ∧ p2.v ≥ 0) := Or.inr ⟨h1, h2⟩
  have hdx : ¬ (p2.x - p1.x = 0) := by
    intro h; linarith
  have hpos : (0 : ℚ) ≤ (p2.v - p1.v) / (p2.x - p1.x) :=
    div_nonneg (by linarith) (by linarith)
  have habs : ¬ (|(p2.v - p1.v) / (p2.x - p1.x)| > 1 / 10 ^ 9) := by
    rw [abs_of_nonneg hpos]; exact not_lt.mpr hs
  simp only [zeroCrossing, hc, hdx, habs, if_true, if_false]

theorem interpolatedRoot_mem (p1 p2 : Sample) (h1 : p1.v < 0) (h2 : 0 ≤ p2.v)
    (hx : p1.x < p2.x) :
    p1.x ≤ interpolatedRoot p1 p2 ∧ interpolatedRoot p1 p2 ≤ p2.x := by
  have hdv : 0 < p2.v - p1.v := by linarith
  have hdx : 0 < p2.x - p1.x := by linarith
  unfold interpolatedRoot
  constructor
  · have : 0 ≤ (-p1.v) * (p2.x - p1.x) / (p2.v - p1.v) :=
      div_nonneg (mul_nonneg (by linarith) hdx.le) hdv.le
    linarith
  · have : (-p1.v) * (p2.x - p1.x) / (p2.v - p1.v) ≤ p2.x - p1.x := by
      rw [div_le_iff₀ hdv]
      nlinarith
    linarith

theorem chain_le_all (p : Sample) (rest : List Sample)
    (h : List.Chain' (fun a b : Sample => a.v ≤ b.v) (p :: rest)) :
    ∀ q ∈ rest, p.v ≤ q.v := by
  induction rest generalizing p with
  | nil => intro q hq; simp at hq
  | cons r rs ih =>
    intro q hq
    rw [List.chain'_cons] at h
    rcases List.mem_cons.mp hq with rfl | hq
    · exact h.1
    · exact le_trans h.1 (ih r h.2 q hq)

/-- A monotone sequence that starts negative and ends non-negative splits at
one adjacent pair into a negative part and a non-negative part. -/
theorem monotone_split (rest : List Sample) : ∀ (p last : Sample),
    p.v < 0 → List.Chain' (fun a b : Sample => a.v ≤ b.v) (p :: rest) →
    (p :: rest).getLast? = some last → 0 ≤ last.v →
    ∃ pre p1 p2 post, p :: rest = pre ++ p1 :: p2 :: post ∧ p1.v < 0 ∧ 0 ≤ p2.v ∧
      (∀ q ∈ pre, q.v < 0) ∧ (∀ q ∈ post, 0 ≤ q.v) := by
  induction rest with
  | nil =>
    intro p last hp _ hl hl0
    simp only [List.getLast?_singleton, Option.some.injEq] at hl
    subst hl
    linarith
  | cons r rs ih =>
    intro p last hp hch hl hl0
    rw [List.chain'_cons] at hch
    by_cases hr : 0 ≤ r.v
    · refine ⟨[], p, r, rs, rfl, hp, hr, by simp, ?_⟩
      intro q hq
      exact le_trans hr (chain_le_all r rs hch.2 q hq)
    · have hl' : (r :: rs).getLast? = some last := by
        rw [List.getLast?_cons_cons] at hl; exact hl
      obtain ⟨pre, p1, p2, post, heq, h1, h2, hpre, hpost⟩ :=
        ih r last (not_le.mp hr) hch.2 hl' hl0
      refine ⟨p :: pre, p1, p2, post, by rw [heq]; rfl, h1, h2, ?_, hpost⟩
      intro q hq
      rcases List.mem_cons.mp hq with rfl | hq
      · exact hp
      · exact hpre q hq

/-- The adjacent pair at which a sequence turns from negative to
non-negative is unique. -/
theorem split_unique (pre : List Sample) : ∀ (pre' post post' : List Sample)
    (p1 p2 a b : Sample),
    pre ++ p1 :: p2 :: post = pre' ++ a :: b :: post' →
    (∀ q ∈ pre, q.v < 0) → p1.v < 0 → 0 ≤ p2.v → (∀ q ∈ post, 0 ≤ q.v) →
    a.v < 0 → 0 ≤ b.v → pre' = pre ∧ a = p1 ∧ b = p2 ∧ post' = post := by
  induction pre with
  | nil =>
    intro pre' post post' p1 p2 a b heq _ _ h2 hpost ha _
    cases pre' with
    | nil =>
      simp only [List.nil_append, List.cons.injEq] at heq
      exact ⟨rfl, heq.1.symm, heq.2.1.symm, heq.2.2.symm⟩
    | cons c cs =>
      simp only [List.nil_append, List.cons_append, List.cons.injEq] at heq
      have hmem : a ∈ p2 :: post := by
        rw [heq.2]; simp
      rcases List.mem_cons.mp hmem with rfl | hm
      · linarith
      · have := hpost a hm; linarith
  | cons c cs ih =>
    intro pre' post post' p1 p2 a b heq hpre h1 h2 hpost ha hb
    cases pre' with
    | nil =>
      simp only [List.nil_append, List.cons_append, List.cons.injEq] at heq
      have hmem : b ∈ cs ++ [p1] := by
        cases cs with
        | nil =>
          simp only [List.nil_append, List.cons.injEq] at heq
          simp [heq.2.1]
        | cons c' cs' =>
          simp only [List.cons_append, List.cons.injEq] at heq
          simp [heq.2.1]
      rcases List.mem_append.mp hmem with hm | hm
      · have := hpre b (List.mem_cons_of_mem _ hm); linarith
      · rw [List.mem_singleton] at hm
        subst hm; linarith
    | cons c' cs' =>
      simp only [List.cons_append, List.cons.injEq] at heq
      obtain ⟨e1, e2, e3, e4⟩ := ih cs' post post' p1 p2 a b heq.2
        (fun q hq => hpre q (List.mem_cons_of_mem _ hq)) h1 h2 hpost ha hb
      exact ⟨by rw [heq.1, e1], e2, e3, e4⟩

/-- C7, as amended (single zero crossing): for a sequence of at least two
samples with strictly increasing positions and monotonically increasing
values, first value negative and last value non-negative, there is a unique
adjacent pair `(p1, p2)` with `p1.v < 0 ≤ p2.v`; its interpolated root
`p1.x + (-p1.v) * (p2.x - p1.x)/(p2.v - p1.v)` lies in `[p1.x, p2.x]`; and
when the slope `(p2.v - p1.v)/(p2.x - p1.x)` of that pair exceeds `1e-9`,
`findSpecialPoints` emits exactly one point labelled `0`, with value `0` at
that root (when the slope is at most `1e-9` it emits none). -/
theorem C7_single_zero_crossing (data : List Sample) (first last : Sample)
    (hfirst : data.head? = some first) (hlast : data.getLast? = some last)
    (hlen : 2 ≤ data.length)
    (hx : List.Chain' (fun a b : Sample => a.x < b.x) data)
    (hv : List.Chain' (fun a b : Sample => a.v ≤ b.v) data)
    (hneg : first.v < 0) (hpos : 0 ≤ last.v) :
    ∃ pre p1 p2 post, data = pre ++ p1 :: p2 :: post ∧ p1.v < 0 ∧ 0 ≤ p2.v ∧
      (∀ pre' a b post', data = pre' ++ a :: b :: post' → a.v < 0 → 0 ≤ b.v →
        pre' = pre ∧ a = p1 ∧ b = p2 ∧ post' = post) ∧
      p1.x ≤ interpolatedRoot p1 p2 ∧ interpolatedRoot p1 p2 ≤ p2.x ∧
      (1 / 10 ^ 9 < (p2.v - p1.v) / (p2.x - p1.x) →
        zeroLabelled (findSpecialPoints data) = [⟨interpolatedRoot p1 p2, 0, "0"⟩]) ∧
      ((p2.v - p1.v) / (p2.x - p1.x) ≤ 1 / 10 ^ 9 →
        zeroLabelled (findSpecialPoints data) = []) := by
  match data, hlen with
  | d0 :: d1 :: rest, _ =>
    simp only [List.head?_cons, Option.some.injEq] at hfirst
    subst hfirst
    obtain ⟨pre, p1, p2, post, heq, h1, h2, hpre, hpost⟩ :=
      monotone_split (d1 :: rest) d0 last hneg hv hlast hpos
    have hxp : p1.x < p2.x := by
      rw [heq] at hx
      exact (List.Chain'.right_of_append hx).rel_head
    have hz : zeroLabelled (findSpecialPoints (d0 :: d1 :: rest))
        = (zeroCrossing p1 p2).toList := by
      rw [zeroLabelled_findSpecialPoints, heq]
      exact zeroPoints_split pre post p1 p2 hpre h1 h2 hpost
    refine ⟨pre, p1, p2, post, heq, h1, h2, ?_, (interpolatedRoot_mem p1 p2 h1 h2 hxp).1,
      (interpolatedRoot_mem p1 p2 h1 h2 hxp).2, ?_, ?_⟩
    · intro pre' a b post' heq' ha hb
      exact split_unique pre pre' post post' p1 p2 a b (heq.symm.trans heq')
        hpre h1 h2 hpost ha hb
    · intro hs
      rw [hz, zeroCrossing_rising p1 p2 h1 h2 hxp hs]
      rfl
    · intro hs
      rw [hz, zeroCrossing_shallow p1 p2 h1 h2 hxp hs]
      rfl

theorem C7_single_zero_crossing_witness :
    ([⟨0, -2⟩, ⟨1, -1⟩, ⟨2, 3⟩, ⟨3, 3⟩] : List Sample).head? = some ⟨0, -2⟩ ∧
    ([⟨0, -2⟩, ⟨1, -1⟩, ⟨2, 3⟩, ⟨3, 3⟩] : List Sample).getLast? = some ⟨3, 3⟩ ∧
    2 ≤ ([⟨0, -2⟩, ⟨1, -1⟩, ⟨2, 3⟩, ⟨3, 3⟩] : List Sample).length ∧
    List.Chain' (fun a b : Sample => a.x < b.x) [⟨0, -2⟩, ⟨1, -1⟩, ⟨2, 3⟩, ⟨3, 3⟩] ∧
    List.Chain' (fun a b : Sample => a.v ≤ b.v) [⟨0, -2⟩, ⟨1, -1⟩, ⟨2, 3⟩, ⟨3, 3⟩] ∧
    zeroLabelled (findSpecialPoints [⟨0, -2⟩, ⟨1, -1⟩, ⟨2, 3⟩, ⟨3, 3⟩])
      = [⟨5 / 4, 0, "0"⟩] := by
  have hx : List.Chain' (fun a b : Sample => a.x < b.x)
      [⟨0, -2⟩, ⟨1, -1⟩, ⟨2, 3⟩, ⟨3, 3⟩] := by
    norm_num [List.Chain']
  have hv : List.Chain' (fun a b : Sample => a.v ≤ b.v)
      [⟨0, -2⟩, ⟨1, -1⟩, ⟨2, 3⟩, ⟨3, 3⟩] := by
    norm_num [List.Chain']
  refine ⟨rfl, rfl, by decide, hx, hv, ?_⟩
  obtain ⟨pre, p1, p2, post, _, _, _, huniq, _, _, hres, _⟩ :=
    C7_single_zero_crossing [⟨0, -2⟩, ⟨1, -1⟩, ⟨2, 3⟩, ⟨3, 3⟩] ⟨0, -2⟩ ⟨3, 3⟩ rfl rfl
      (by decide) hx hv (by norm_num) (by norm_num)
  obtain ⟨_, e1, e2, _⟩ := huniq [⟨0, -2⟩] ⟨1, -1⟩ ⟨2, 3⟩ [⟨3, 3⟩] rfl
    (by norm_num) (by norm_num)
  subst e1 e2
  rw [hres (by norm_num)]
  norm_num [interpolatedRoot]

/-- C7 as stated fails: the two samples `(0, -1e-10)` and `(1, 0)` have
increasing positions and values, start negative and end non-negative, but the
slope `1e-10` of the crossing pair does not pass the test
`Math.abs(slope) > 1e-9`, and no point labelled `0` is emitted. -/
theorem C7_shallow_slope_counterexample :
    2 ≤ ([⟨0, -1 / 10 ^ 10⟩, ⟨1, 0⟩] : List Sample).length ∧
    List.Chain' (fun a b : Sample => a.x < b.x) [⟨0, -1 / 10 ^ 10⟩, ⟨1, 0⟩] ∧
    List.Chain' (fun a b : Sample => a.v ≤ b.v) [⟨0, -1 / 10 ^ 10⟩, ⟨1, 0⟩] ∧
    (⟨0, -1 / 10 ^ 10⟩ : Sample).v < 0 ∧ 0 ≤ (⟨1, 0⟩ : Sample).v ∧
    zeroLabelled (findSpecialPoints [⟨0, -1 / 10 ^ 10⟩, ⟨1, 0⟩]) = [] := by
  refine ⟨by decide, by norm_num [List.Chain'], by norm_num [List.Chain'], by norm_num,
    by norm_num, ?_⟩
  rw [zeroLabelled_findSpecialPoints, zeroPoints_cons_cons,
    zeroCrossing_shallow _ _ (by norm_num) (by norm_num) (by norm_num) (by norm_num)]
  rfl

/-! ## Sampling grid and the integration recurrence on it -/

theorem sampleX_eq (app : App) (i : ℕ) : sampleX app i = (i : ℚ) / 1000 * app.beamLength := by
  simp [sampleX, points]

/-- On the sampling grid of a beam of length at least `1`, the tolerance test
`passed` between two grid positions is the comparison of their indices. -/
theorem passed_grid (L : ℚ) (hL : 1 ≤ L) (j i : ℕ) :
    passed ((j : ℚ) / 1000 * L) ((i : ℚ) / 1000 * L) = decide (j ≤ i) := by
  unfold passed
  rcases lt_trichotomy j i with h | h | h
  · have hc : (j : ℚ) < (i : ℚ) := by exact_mod_cast h
    have : (j : ℚ) / 1000 * L < (i : ℚ) / 1000 * L := by nlinarith
    simp [this, h.le]
  · subst h
    simp
  · have hc : (i : ℚ) + 1 ≤ (j : ℚ) := by exact_mod_cast h
    have hd : (1 : ℚ) / 1000 ≤ (j : ℚ) / 1000 * L - (i : ℚ) / 1000 * L := by nlinarith
    have h1 : ¬ ((j : ℚ) / 1000 * L < (i : ℚ) / 1000 * L) := by
      intro hlt; linarith
    have h2 : ¬ (|(j : ℚ) / 1000 * L - (i : ℚ) / 1000 * L| < 1 / 10000) := by
      rw [abs_of_nonneg (by linarith)]
      intro hlt; linarith
    have h3 : ¬ (j ≤ i) := by omega
    simp only [h1, h2, h3, decide_False, Bool.or_self]

theorem passed_zero (L : ℚ) (hL : 1 ≤ L) (i : ℕ) : passed 0 ((i : ℚ) / 1000 * L) = true := by
  have := passed_grid L hL 0 i
  simpa using this

theorem passed_half (L : ℚ) (hL : 1 ≤ L) (i : ℕ) :
    passed (L / 2) ((i : ℚ) / 1000 * L) = decide (500 ≤ i) := by
  have := passed_grid L hL 500 i
  have e : ((500 : ℕ) : ℚ) / 1000 * L = L / 2 := by push_cast; ring
  rw [e] at this
  exact this

theorem passed_full (L : ℚ) (hL : 1 ≤ L) (i : ℕ) :
    passed L ((i : ℚ) / 1000 * L) = decide (1000 ≤ i) := by
  have := passed_grid L hL 1000 i
  have e : ((1000 : ℕ) : ℚ) / 1000 * L = L := by push_cast; ring
  rw [e] at this
  exact this

/-- The shear sequence, when the reactions are solved, and its entries. -/
theorem calculateShearForce_of_reactions (app : App) (rs : List Reaction)
    (h : calculateReactions app = Solution.reactions rs) :
    calculateShearForce app = some ((List.range 1001).map (shearSample app rs)) := by
  unfold calculateShearForce
  rw [h]
  rfl

theorem getElem?_map_range (f : ℕ → Sample) (n i : ℕ) (h : i < n) :
    ((List.range n).map f)[i]? = some (f i) := by
  rw [List.getElem?_map, List.getElem?_range h]
  rfl

/-- Closed form of the moment sequence over a grid `f 0, …, f n`: a function
`F` that starts at the known value at `k0` and satisfies the trapezoid
recurrence up to `K` gives the moment values on `k0..K`. -/
theorem moment_closed_form (f : ℕ → Sample) (n : ℕ) (m : List Sample)
    (hm : calculateBendingMoment ((List.range (n + 1)).map f) = some m)
    (F : ℕ → ℚ) (k0 K : ℕ) (hK : K ≤ n)
    (h0 : m[k0]? = some ⟨(f k0).x, F k0⟩)
    (hstep : ∀ k, k0 ≤ k → k < K →
      F (k + 1) = F k + ((f k).v + (f (k + 1)).v) / 2 * ((f (k + 1)).x - (f k).x)) :
    ∀ k, k0 ≤ k → k ≤ K → m[k]? = some ⟨(f k).x, F k⟩ := by
  intro k hk
  induction k, hk using Nat.le_induction with
  | base => intro _; exact h0
  | succ k hk ih =>
    intro hkK
    have ihk := ih (by omega)
    obtain ⟨b, hb1, hb2⟩ := calculateBendingMoment_step _ m hm k (f k) (f (k + 1))
      (getElem?_map_range f (n + 1) k (by omega))
      (getElem?_map_range f (n + 1) (k + 1) (by omega))
    rw [ihk, Option.some.injEq, Sample.mk.injEq] at hb1
    rw [hb2, hstep k hk (by omega), ← hb1.2]

theorem moment_at_zero (f : ℕ → Sample) (n : ℕ) (m : List Sample)
    (hm : calculateBendingMoment ((List.range (n + 1)).map f) = some m) :
    m[0]? = some ⟨(f 0).x, 0⟩ := by
  rw [List.range_succ_eq_map, List.map_cons, calculateBendingMoment_cons,
    Option.some.injEq] at hm
  subst hm
  exact List.getElem?_cons_zero

theorem moment_exists (f : ℕ → Sample) (n : ℕ) :
    ∃ m, calculateBendingMoment ((List.range (n + 1)).map f) = some m ∧
      m.length = n + 1 := by
  rw [List.range_succ_eq_map, List.map_cons, calculateBendingMoment_cons]
  refine ⟨_, rfl, ?_⟩
  simp [momentLoop_length]

/-! ## Point load at midspan -/

theorem midspan_reactions (L P : ℚ) (t1 t2 : String) (hL : 1 ≤ L) :
    calculateReactions (midspanApp L P t1 t2)
      = Solution.reactions [⟨0, P / 2, "Ra"⟩, ⟨L, P / 2, "Rb"⟩] := by
  have h0 : (0 : ℚ) ≤ L := by linarith
  have hne : L ≠ 0 := by linarith
  rw [calculateReactions_two (midspanApp L P t1 t2) ⟨0, t1⟩ ⟨L, t2⟩ rfl
    (by simpa using hne.symm)]
  simp only [min_eq_left h0, max_eq_right h0, totalLoad, sumMomentAbout, midspanApp,
    List.map_nil, List.map_cons, List.sum_nil, List.sum_cons]
  have e : (0 + (P * (L / 2 - 0) + 0)) / (L - 0) = P / 2 := by
    field_simp
    ring
  rw [e]
  norm_num
  ring

theorem midspan_shearSample (L P : ℚ) (t1 t2 : String) (hL : 1 ≤ L) (i : ℕ) :
    shearSample (midspanApp L P t1 t2) [⟨0, P / 2, "Ra"⟩, ⟨L, P / 2, "Rb"⟩] i
      = ⟨(i : ℚ) / 1000 * L, midspanShear P i⟩ := by
  simp only [shearSample, sampleX_eq, midspanApp, List.foldl_cons, List.foldl_nil,
    reactionShearStep, pointShearStep, passed_zero L hL, passed_half L hL, passed_full L hL,
    if_true, midspanShear, decide_eq_true_eq]
  congr 1
  split_ifs <;> first | (exfalso; omega) | ring1

theorem midspanMoment_step (L P : ℚ) (k : ℕ) (hk : k < 1000) :
    midspanMoment L P (k + 1) =
      midspanMoment L P k + (midspanShear P k + midspanShear P (k + 1)) / 2
        * (((k + 1 : ℕ) : ℚ) / 1000 * L - (k : ℚ) / 1000 * L) := by
  unfold midspanMoment midspanShear
  split_ifs <;>
    first
    | (exfalso; omega)
    | (push_cast; ring1)
    | (have hk9 : k = 499 := by omega
       subst hk9; push_cast; ring1)
    | (have hk9 : k = 999 := by omega
       subst hk9; push_cast; ring1)

/-- The moment sequence of the midspan configuration in closed form. -/
theorem midspan_moment (L P : ℚ) (t1 t2 : String) (hL : 1 ≤ L) :
    ∃ shear moment : List Sample,
      calculateShearForce (midspanApp L P t1 t2) = some shear ∧
      calculateBendingMoment shear = some moment ∧
      shear.length = 1001 ∧ moment.length = 1001 ∧
      (∀ k, k ≤ 1000 → shear[k]? = some ⟨(k : ℚ) / 1000 * L, midspanShear P k⟩) ∧
      (∀ k, k ≤ 1000 → moment[k]? = some ⟨(k : ℚ) / 1000 * L, midspanMoment L P k⟩) := by
  obtain ⟨m, hm, hlen⟩ := moment_exists
    (shearSample (midspanApp L P t1 t2) [⟨0, P / 2, "Ra"⟩, ⟨L, P / 2, "Rb"⟩]) 1000
  refine ⟨_, m, calculateShearForce_of_reactions _ _ (midspan_reactions L P t1 t2 hL), hm,
    by simp, hlen, ?_, ?_⟩
  · intro k hk
    rw [getElem?_map_range _ _ _ (by omega), midspan_shearSample L P t1 t2 hL]
  · intro k hk
    have h := moment_closed_form _ 1000 m hm (midspanMoment L P) 0 1000 (le_refl _)
      (by
        rw [moment_at_zero _ 1000 m hm, midspan_shearSample L P t1 t2 hL]
        simp [midspanMoment])
      (by
        intro j _ hj
        simp only [midspan_shearSample L P t1 t2 hL]
        exact midspanMoment_step L P j hj)
      k (Nat.zero_le k) hk
    rw [h, midspan_shearSample L P t1 t2 hL]

/-- C8, as amended (midspan point load, in exact arithmetic): for `L ≥ 1`,
supports at `0` and `L` and a single point load `P` at `L/2`, computed in exact
rational arithmetic the reactions are `Ra = Rb = P/2`, and the moment sample
at index `500` of the `1001` samples sits at `L/2` and has the value
`P*L/4 - P*L/2000`, which differs from `P*L/4` by at most `|P|*L/2000`. -/
theorem C8_midspan_point_load (L P : ℚ) (t1 t2 : String) (hL : 1 ≤ L) :
    calculateReactions (midspanApp L P t1 t2)
      = Solution.reactions [⟨0, P / 2, "Ra"⟩, ⟨L, P / 2, "Rb"⟩] ∧
    ∃ shear moment : List Sample,
      calculateShearForce (midspanApp L P t1 t2) = some shear ∧
      calculateBendingMoment shear = some moment ∧
      shear.length = 1001 ∧ moment.length = 1001 ∧
      ∃ mid : Sample, moment[500]? = some mid ∧ mid.x = L / 2 ∧
        mid.v = P * L / 4 - P * L / 2000 ∧
        |mid.v - P * L / 4| ≤ |P| * L / 2000 := by
  refine ⟨midspan_reactions L P t1 t2 hL, ?_⟩
  obtain ⟨shear, moment, hs, hm, hl1, hl2, _, hmom⟩ := midspan_moment L P t1 t2 hL
  have hv : midspanMoment L P 500 = P * L / 4 - P * L / 2000 := by
    norm_num [midspanMoment]
    ring
  refine ⟨shear, moment, hs, hm, hl1, hl2, _, hmom 500 (by norm_num), ?_, hv, ?_⟩
  · norm_num
    ring
  · simp only [hv]
    have e : P * L / 4 - P * L / 2000 - P * L / 4 = -(P * L / 2000) := by ring
    rw [e, abs_neg, abs_div, abs_mul, abs_of_nonneg (by linarith : (0 : ℚ) ≤ L)]
    norm_num

theorem C8_midspan_point_load_witness :
    (1 : ℚ) ≤ 4 ∧
    calculateReactions (midspanApp 4 6 "pin" "roller")
      = Solution.reactions [⟨0, 6 / 2, "Ra"⟩, ⟨4, 6 / 2, "Rb"⟩] ∧
    ∃ shear moment : List Sample,
      calculateShearForce (midspanApp 4 6 "pin" "roller") = some shear ∧
      calculateBendingMoment shear = some moment ∧
      shear.length = 1001 ∧ moment.length = 1001 ∧
      ∃ mid : Sample, moment[500]? = some mid ∧ mid.x = 4 / 2 ∧
        mid.v = 6 * 4 / 4 - 6 * 4 / 2000 ∧
        |mid.v - 6 * 4 / 4| ≤ |6| * 4 / 2000 :=
  ⟨by norm_num, C8_midspan_point_load 4 6 "pin" "roller" (by norm_num)⟩

/-! ## Uniform load over the full span -/

theorem uniform_reactions (L w : ℚ) (t1 t2 : String) (hL : 1 ≤ L) :
    calculateReactions (uniformApp L w t1 t2)
      = Solution.reactions [⟨0, w * L / 2, "Ra"⟩, ⟨L, w * L / 2, "Rb"⟩] := by
  have h0 : (0 : ℚ) ≤ L := by linarith
  have hne : L ≠ 0 := by linarith
  rw [calculateReactions_two (uniformApp L w t1 t2) ⟨0, t1⟩ ⟨L, t2⟩ rfl
    (by simpa using hne.symm)]
  simp only [min_eq_left h0, max_eq_right h0, totalLoad, sumMomentAbout, uniformApp,
    List.map_nil, List.map_cons, List.sum_nil, List.sum_cons, resultant,
    centroidDistFromLoadStart]
  have e : ((w + w) / 2 * (L - 0)
        * (0 + (if w + w = 0 then (L - 0) / 2 else (L - 0) / 3 * (w + 2 * w) / (w + w)) - 0)
        + 0 + 0) / (L - 0) = w * L / 2 := by
    by_cases hw : w = 0
    · subst hw; simp
    · have hww : w + w ≠ 0 := by
        intro h; apply hw; linarith
      rw [if_neg hww]
      field_simp
      ring
  rw [e]
  congr 3
  ring

theorem uniform_loadShearAmount (L w : ℚ) (hL : 1 ≤ L) (i : ℕ) (hi : i ≤ 1000) :
    loadShearAmount ((i : ℚ) / 1000 * L) ⟨0, L, w, w⟩ = w * ((i : ℚ) / 1000 * L) := by
  have hi' : (i : ℚ) ≤ 1000 := by exact_mod_cast hi
  have hxL : (i : ℚ) / 1000 * L ≤ L := by nlinarith
  have hmin : min ((i : ℚ) / 1000 * L) L = (i : ℚ) / 1000 * L := min_eq_left hxL
  rcases Nat.eq_zero_or_pos i with h | h
  · subst h
    rw [loadShearAmount_of_le]
    · simp
    · simp only [Nat.cast_zero, zero_div, zero_mul, max_self]
      exact min_le_left _ _
  · have hpos : (0 : ℚ) < (i : ℚ) / 1000 * L := by
      have : (1 : ℚ) ≤ (i : ℚ) := by exact_mod_cast h
      have : (0 : ℚ) < (i : ℚ) / 1000 := by linarith
      nlinarith
    rw [loadShearAmount_of_lt]
    · simp only [hmin, sub_self, zero_div, zero_mul, add_zero, sub_zero]
    · simp only [max_self, hmin]
      exact hpos

theorem uniform_shearSample (L w : ℚ) (t1 t2 : String) (hL : 1 ≤ L) (i : ℕ) (hi : i < 1000) :
    shearSample (uniformApp L w t1 t2) [⟨0, w * L / 2, "Ra"⟩, ⟨L, w * L / 2, "Rb"⟩] i
      = ⟨(i : ℚ) / 1000 * L, w * L / 2 - w * ((i : ℚ) / 1000 * L)⟩ := by
  have h3 : ¬ (1000 ≤ i) := by omega
  simp only [shearSample, sampleX_eq, uniformApp, List.foldl_cons, List.foldl_nil,
    reactionShearStep, passed_zero L hL, passed_full L hL, loadShearStep_eq,
    uniform_loadShearAmount L w hL i hi.le, if_true, h3, decide_False, zero_add]
  rfl

/-- C9 (full-span uniform load): for `L ≥ 1`, supports at `0` and `L` and one
uniform load of intensity `w` on `[0, L]`, the reactions are
`Ra = Rb = w*L/2`, every shear sample at index `i < 1000` is
`w*L/2 - w*x_i`, and the moment sample at index `500` sits at `L/2` and is
exactly `w*L^2/8`. -/
theorem C9_uniform_load (L w : ℚ) (t1 t2 : String) (hL : 1 ≤ L) :
    calculateReactions (uniformApp L w t1 t2)
      = Solution.reactions [⟨0, w * L / 2, "Ra"⟩, ⟨L, w * L / 2, "Rb"⟩] ∧
    ∃ shear moment : List Sample,
      calculateShearForce (uniformApp L w t1 t2) = some shear ∧
      calculateBendingMoment shear = some moment ∧
      shear.length = 1001 ∧ moment.length = 1001 ∧
      (∀ i : ℕ, i < 1000 →
        shear[i]? = some ⟨(i : ℚ) / 1000 * L, w * L / 2 - w * ((i : ℚ) / 1000 * L)⟩) ∧
      moment[500]? = some ⟨L / 2, w * L ^ 2 / 8⟩ := by
  refine ⟨uniform_reactions L w t1 t2 hL, ?_⟩
  obtain ⟨m, hm, hlen⟩ := moment_exists
    (shearSample (uniformApp L w t1 t2) [⟨0, w * L / 2, "Ra"⟩, ⟨L, w * L / 2, "Rb"⟩]) 1000
  refine ⟨_, m, calculateShearForce_of_reactions _ _ (uniform_reactions L w t1 t2 hL), hm,
    by simp, hlen, ?_, ?_⟩
  · intro i hi
    rw [getElem?_map_range _ _ _ (by omega), uniform_shearSample L w t1 t2 hL i hi]
  · have h := moment_closed_form _ 1000 m hm
      (fun k => w * L / 2 * ((k : ℚ) / 1000 * L) - w * ((k : ℚ) / 1000 * L) ^ 2 / 2)
      0 500 (by norm_num)
      (by
        rw [moment_at_zero _ 1000 m hm, uniform_shearSample L w t1 t2 hL 0 (by norm_num)]
        simp)
      (by
        intro j _ hj
        rw [uniform_shearSample L w t1 t2 hL j (by omega),
          uniform_shearSample L w t1 t2 hL (j + 1) (by omega)]
        push_cast
        ring)
      500 (Nat.zero_le _) (le_refl _)
    rw [h, uniform_shearSample L w t1 t2 hL 500 (by norm_num)]
    simp only [Option.some.injEq, Sample.mk.injEq]
    constructor
    · norm_num; ring
    · norm_num; ring

theorem C9_uniform_load_witness :
    (1 : ℚ) ≤ 4 ∧
    calculateReactions (uniformApp 4 3 "pin" "roller")
      = Solution.reactions [⟨0, 3 * 4 / 2, "Ra"⟩, ⟨4, 3 * 4 / 2, "Rb"⟩] ∧
    ∃ shear moment : List Sample,
      calculateShearForce (uniformApp 4 3 "pin" "roller") = some shear ∧
      calculateBendingMoment shear = some moment ∧
      shear.length = 1001 ∧ moment.length = 1001 ∧
      (∀ i : ℕ, i < 1000 →
        shear[i]? = some ⟨(i : ℚ) / 1000 * 4, 3 * 4 / 2 - 3 * ((i : ℚ) / 1000 * 4)⟩) ∧
      moment[500]? = some ⟨4 / 2, 3 * 4 ^ 2 / 8⟩ :=
  ⟨by norm_num, C9_uniform_load 4 3 "pin" "roller" (by norm_num)⟩

/-! ## The default scenario -/

theorem defaultApp_eq : defaultApp = midspanApp 10 10 "pin" "roller" := by
  simp only [defaultApp, midspanApp, App.mk.injEq, List.cons.injEq, PointLoad.mk.injEq,
    and_true, true_and]
  norm_num

/-- In exact arithmetic the moment samples of the default configuration at
index `500` and index `1000` are `25 - 1/20` and `-1/40`. -/
theorem default_moment_exact :
    ∃ shear moment : List Sample,
      calculateShearForce defaultApp = some shear ∧
      calculateBendingMoment shear = some moment ∧
      shear.length = 1001 ∧ moment.length = 1001 ∧
      moment[500]? = some ⟨5, 25 - 1 / 20⟩ ∧ moment[1000]? = some ⟨10, -1 / 40⟩ := by
  obtain ⟨shear, moment, hs, hm, hl1, hl2, _, hmom⟩ :=
    midspan_moment 10 10 "pin" "roller" (by norm_num)
  refine ⟨shear, moment, by rw [defaultApp_eq]; exact hs, hm, hl1, hl2, ?_, ?_⟩
  · rw [hmom 500 (by norm_num)]
    norm_num [midspanMoment]
  · rw [hmom 1000 (by norm_num)]
    norm_num [midspanMoment]

/-- C10 (moment diagram of the default scenario, to the tolerance set by the
resolution): for the default configuration (`beamLength = 10`, supports at `0`
and `10`, one point load of `10` at `5`, no distributed loads), the moment
sequence computed from the `1001` shear samples has, at the sample at `x = 5`
(index `500`), a value within `10 * (10 / 1000)` of `25`, and at the sample at
`x = 10` (index `1000`) a value within `10 * (10 / 1000)` of `0`: the load
times one sample spacing. -/
theorem C10_default_moment :
    ∃ shear moment : List Sample,
      calculateShearForce defaultApp = some shear ∧
      calculateBendingMoment shear = some moment ∧
      shear.length = 1001 ∧ moment.length = 1001 ∧
      ∃ p q : Sample,
        moment[500]? = some p ∧ p.x = 5 ∧ |p.v - 25| ≤ 10 * (10 / 1000) ∧
        moment[1000]? = some q ∧ q.x = 10 ∧ |q.v - 0| ≤ 10 * (10 / 1000) := by
  obtain ⟨shear, moment, hs, hm, hl1, hl2, h500, h1000⟩ := default_moment_exact
  refine ⟨shear, moment, hs, hm, hl1, hl2, _, _, h500, rfl, ?_, h1000, rfl, ?_⟩
  · rw [show ((25 : ℚ) - 1 / 20 - 25) = -(1 / 20) by ring, abs_neg,
      abs_of_pos (by norm_num)]
    norm_num
  · rw [show ((-1 : ℚ) / 40 - 0) = -(1 / 40) by ring, abs_neg, abs_of_pos (by norm_num)]
    norm_num

/-! ## Critical points: sequences that graze zero -/

/-- A sequence of negative values has no zero-crossing point. -/
theorem zeroPoints_neg (data : List Sample) (h : ∀ q ∈ data, q.v < 0) :
    zeroPoints data = [] := by
  induction data with
  | nil => rfl
  | cons p rest ih =>
    cases rest with
    | nil => rfl
    | cons r rs =>
      rw [zeroPoints_cons_cons,
        zeroCrossing_neg_neg p r (h p (List.mem_cons_self _ _))
          (h r (List.mem_cons_of_mem _ (List.mem_cons_self _ _)))]
      exact ih (fun q hq => h q (List.mem_cons_of_mem _ hq))

/-- The points labelled `0` in the result, for a sequence of any length. -/
theorem zeroLabelled_findSpecialPoints_any (data : List Sample) :
    zeroLabelled (findSpecialPoints data) = zeroPoints data := by
  match data with
  | [] => rfl
  | [_] => rfl
  | d0 :: d1 :: rest => exact zeroLabelled_findSpecialPoints d0 d1 rest

/-- The point pushed for a pair falling from a non-negative to a negative
value over a positive step with slope below `-1e-9`. -/
theorem zeroCrossing_falling (p1 p2 : Sample) (h1 : 0 ≤ p1.v) (h2 : p2.v < 0)
    (hx : p1.x < p2.x) (hs : (p2.v - p1.v) / (p2.x - p1.x) < -(1 / 10 ^ 9)) :
    zeroCrossing p1 p2 = some ⟨interpolatedRoot p1 p2, 0, "0"⟩ := by
  have hc : (p1.v ≥ 0 ∧ p2.v < 0) ∨ (p1.v < 0 ∧ p2.v ≥ 0) := Or.inl ⟨h1, h2⟩
  have hdx : ¬ (p2.x - p1.x = 0) := by
    intro h; linarith
  have hneg : (p2.v - p1.v) / (p2.x - p1.x) < 0 := lt_trans hs (by norm_num)
  have habs : |(p2.v - p1.v) / (p2.x - p1.x)| > 1 / 10 ^ 9 := by
    rw [abs_of_neg hneg]; linarith
  simp only [zeroCrossing, hc, hdx, habs, if_true, if_false, interpolatedRoot]
  have hdv : p2.v - p1.v ≠ 0 := by
    intro h; linarith
  have hdx' : p2.x - p1.x ≠ 0 := hdx
  congr 2
  field_simp

/-- C11, as amended (no spurious zero on grazing): for every sample sequence
whose values are all non-negative (it may touch zero from above any number of
times), or all negative, `findSpecialPoints` emits no point labelled `0`;
the positions play no part. -/
theorem C11_no_zero_on_grazing (data : List Sample)
    (h : (∀ q ∈ data, 0 ≤ q.v) ∨ (∀ q ∈ data, q.v < 0)) :
    zeroLabelled (findSpecialPoints data) = [] := by
  rw [zeroLabelled_findSpecialPoints_any]
  rcases h with h | h
  · exact zeroPoints_nonneg data h
  · exact zeroPoints_neg data h

theorem C11_no_zero_on_grazing_witness :
    ((∀ q ∈ ([⟨0, 1⟩, ⟨1, 0⟩, ⟨2, 1⟩] : List Sample), 0 ≤ q.v) ∧
      zeroLabelled (findSpecialPoints [⟨0, 1⟩, ⟨1, 0⟩, ⟨2, 1⟩]) = []) ∧
    ((∀ q ∈ ([⟨0, -1⟩, ⟨1, -2⟩, ⟨2, -1⟩] : List Sample), q.v < 0) ∧
      zeroLabelled (findSpecialPoints [⟨0, -1⟩, ⟨1, -2⟩, ⟨2, -1⟩]) = []) := by
  have h1 : ∀ q ∈ ([⟨0, 1⟩, ⟨1, 0⟩, ⟨2, 1⟩] : List Sample), 0 ≤ q.v := by
    intro q hq
    simp only [List.mem_cons, List.mem_singleton, List.not_mem_nil, or_false] at hq
    rcases hq with rfl | rfl | rfl <;> norm_num
  have h2 : ∀ q ∈ ([⟨0, -1⟩, ⟨1, -2⟩, ⟨2, -1⟩] : List Sample), q.v < 0 := by
    intro q hq
    simp only [List.mem_cons, List.mem_singleton, List.not_mem_nil, or_false] at hq
    rcases hq with rfl | rfl | rfl <;> norm_num
  exact ⟨⟨h1, C11_no_zero_on_grazing _ (Or.inl h1)⟩,
    ⟨h2, C11_no_zero_on_grazing _ (Or.inr h2)⟩⟩

/-- C11 as stated fails on the non-positive side: the samples `(0, -1)`,
`(1, 0)`, `(2, -1)` have strictly increasing positions and values that are
all `≤ 0`, touching zero once, yet both adjacent pairs pass the sign test
(`-1 < 0 ≤ 0`, then `0 ≥ 0 > -1`) and two points labelled `0` are emitted,
both at `x = 1`. -/
theorem C11_negative_graze_counterexample :
    List.Chain' (fun a b : Sample => a.x < b.x) [⟨0, -1⟩, ⟨1, 0⟩, ⟨2, -1⟩] ∧
    (∀ q ∈ ([⟨0, -1⟩, ⟨1, 0⟩, ⟨2, -1⟩] : List Sample), q.v ≤ 0) ∧
    zeroLabelled (findSpecialPoints [⟨0, -1⟩, ⟨1, 0⟩, ⟨2, -1⟩])
      = [⟨1, 0, "0"⟩, ⟨1, 0, "0"⟩] ∧
    zeroLabelled (findSpecialPoints [⟨0, -1⟩, ⟨1, 0⟩, ⟨2, -1⟩]) ≠ [] := by
  have hz : zeroLabelled (findSpecialPoints [⟨0, -1⟩, ⟨1, 0⟩, ⟨2, -1⟩])
      = [⟨1, 0, "0"⟩, ⟨1, 0, "0"⟩] := by
    rw [zeroLabelled_findSpecialPoints, zeroPoints_cons_cons,
      zeroCrossing_rising ⟨0, -1⟩ ⟨1, 0⟩ (by norm_num) (by norm_num) (by norm_num)
        (by norm_num),
      zeroPoints_cons_cons,
      zeroCrossing_falling ⟨1, 0⟩ ⟨2, -1⟩ (by norm_num) (by norm_num) (by norm_num)
        (by norm_num)]
    norm_num [interpolatedRoot, zeroPoints_single]
  refine ⟨by norm_num [List.Chain'], ?_, hz, by rw [hz]; simp⟩
  intro q hq
  simp only [List.mem_cons, List.mem_singleton, List.not_mem_nil, or_false] at hq
  rcases hq with rfl | rfl | rfl <;> norm_num

/-! ## A load starting left of the beam origin -/

theorem negativeStart_reactions :
    calculateReactions negativeStartApp
      = Solution.reactions [⟨0, 2, "Ra"⟩, ⟨10, 0, "Rb"⟩] := by
  rw [calculateReactions_two negativeStartApp ⟨0, "pin"⟩ ⟨10, "roller"⟩ rfl (by norm_num)]
  norm_num [totalLoad, sumMomentAbout, negativeStartApp, resultant,
    centroidDistFromLoadStart]

/-- C3 (distributed-load shear contribution), evaluated where the code departs
from it: for the uniform load of intensity `1` on `[-1, 1]` and the first
sample `x = 0`, `min(x, end) - start` is `1 > 0` and the closed form is `1`,
but the branch `end > start` with `start = Math.max(0, load.start)` is not
taken and nothing is subtracted, so the first shear sample is the whole
reaction `2` and the next one, at `x = 0.01`, is `0.99`; likewise the
uniform load of intensity `1` on `[-2, -1]` contributes `0` at `x = 0`,
beyond its end, not its resultant `1`. -/
theorem C3_negative_start_code_bug :
    ((-1 : ℚ) ≤ 1 ∧ ¬ (min (0 : ℚ) 1 - (-1) ≤ 0) ∧
      (1 : ℚ) * (min (0 : ℚ) 1 - (-1))
          + ((1 - 1) / (1 - (-1))) * (min (0 : ℚ) 1 - (-1)) ^ 2 / 2 = 1 ∧
      loadShearAmount 0 ⟨-1, 1, 1, 1⟩ = 0 ∧
      (∀ shear, loadShearStep 0 shear ⟨-1, 1, 1, 1⟩ = shear)) ∧
    (∃ shear : List Sample, calculateShearForce negativeStartApp = some shear ∧
      shear[0]? = some ⟨0, 2⟩ ∧ shear[1]? = some ⟨1 / 100, 99 / 100⟩) ∧
    ((-2 : ℚ) ≤ -1 ∧ (-1 : ℚ) ≤ 0 ∧
      (1 + 1) / 2 * ((-1 : ℚ) - (-2)) = 1 ∧
      loadShearAmount 0 ⟨-2, -1, 1, 1⟩ = 0) := by
  have h1 : loadShearAmount 0 ⟨-1, 1, 1, 1⟩ = 0 :=
    loadShearAmount_of_le 0 ⟨-1, 1, 1, 1⟩ (by norm_num)
  have h2 : loadShearAmount 0 ⟨-2, -1, 1, 1⟩ = 0 :=
    loadShearAmount_of_le 0 ⟨-2, -1, 1, 1⟩ (by norm_num)
  have h3 : loadShearAmount (1 / 100) ⟨-1, 1, 1, 1⟩ = 101 / 100 := by
    rw [loadShearAmount_of_lt (1 / 100) ⟨-1, 1, 1, 1⟩ (by norm_num)]
    norm_num
  refine ⟨⟨by norm_num, by norm_num, by norm_num, h1, ?_⟩, ?_,
    ⟨by norm_num, by norm_num, by norm_num, h2⟩⟩
  · intro shear
    rw [loadShearStep_eq, h1, sub_zero]
  · refine ⟨_, calculateShearForce_of_reactions _ _ negativeStart_reactions, ?_, ?_⟩
    · rw [getElem?_map_range _ _ _ (by norm_num)]
      simp only [shearSample, sampleX_eq, negativeStartApp, List.foldl_cons, List.foldl_nil,
        loadShearStep_eq, reactionShearStep, passed]
      norm_num [h1]
    · rw [getElem?_map_range _ _ _ (by norm_num)]
      simp only [shearSample, sampleX_eq, negativeStartApp, List.foldl_cons, List.foldl_nil,
        loadShearStep_eq, reactionShearStep, passed]
      norm_num [h3]

/-! ## Point load at midspan in binary64 arithmetic -/

theorem ulpExponent_eq (q : ℚ) (e : ℤ) (hlo : (2 : ℚ) ^ (e + 52) ≤ |q|)
    (hhi : |q| < (2 : ℚ) ^ (e + 53)) : ulpExponent q = e := by
  have hpos : 0 < |q| := lt_of_lt_of_le (by positivity) hlo
  have h1 : e + 52 ≤ Int.log 2 |q| :=
    (Int.zpow_le_iff_le_log (by norm_num) hpos).mp (by exact_mod_cast hlo)
  have h2 : Int.log 2 |q| < e + 53 :=
    (Int.lt_zpow_iff_log_lt (by norm_num) hpos).mp (by exact_mod_cast hhi)
  unfold ulpExponent
  omega

/-- Evaluation of `fl`: with `2^(e+52) ≤ |q| < 2^(e+53)` the result is the
rounded significand `n` times `2^e`. -/
theorem fl_eq (q : ℚ) (e n : ℤ) (hlo : (2 : ℚ) ^ (e + 52) ≤ |q|)
    (hhi : |q| < (2 : ℚ) ^ (e + 53)) (hn : roundTiesEven (q / 2 ^ e) = n) :
    fl q = (n : ℚ) * 2 ^ e := by
  have hpos : 0 < |q| := lt_of_lt_of_le (by positivity) hlo
  have hq : q ≠ 0 := abs_pos.mp hpos
  unfold fl
  rw [if_neg hq, ulpExponent_eq q e hlo hhi, hn]

/-- The number `tenth64` is the rounding of the decimal `0.1`. -/
theorem fl_one_tenth : fl (1 / 10) = tenth64 := by
  rw [fl_eq (1 / 10) (-56) 7205759403792794 (by norm_num [abs_of_pos])
    (by norm_num [abs_of_pos]) (by norm_num [roundTiesEven]), tenth64]
  norm_num

theorem fl_neg_three : fl (-3) = -3 := by
  rw [fl_eq (-3) (-51) (-6755399441055744) (by norm_num [abs_of_neg])
    (by norm_num [abs_of_neg]) (by norm_num [roundTiesEven])]
  norm_num

theorem fl_three : fl 3 = 3 := by
  rw [fl_eq 3 (-51) 6755399441055744 (by norm_num [abs_of_pos])
    (by norm_num [abs_of_pos]) (by norm_num [roundTiesEven])]
  norm_num

theorem fl_three_halves : fl (3 / 2) = 3 / 2 := by
  rw [fl_eq (3 / 2) (-52) 6755399441055744 (by norm_num [abs_of_pos])
    (by norm_num [abs_of_pos]) (by norm_num [roundTiesEven])]
  norm_num

theorem fl_tenth64 : fl (3602879701896397 / 2 ^ 55) = 3602879701896397 / 2 ^ 55 := by
  rw [fl_eq _ (-56) 7205759403792794 (by norm_num [abs_of_pos])
    (by norm_num [abs_of_pos]) (by norm_num [roundTiesEven])]
  norm_num

/-- The half of `tenth64` is a binary64 number: `P / 2` is computed exactly. -/
theorem fl_half_tenth64 :
    fl (3602879701896397 / 2 ^ 55 / 2) = 3602879701896397 / 2 ^ 55 / 2 := by
  rw [fl_eq _ (-57) 7205759403792794 (by norm_num [abs_of_pos])
    (by norm_num [abs_of_pos]) (by norm_num [roundTiesEven])]
  norm_num

/-- The product `F * distA = 0.1 * 1.5` lies halfway between two binary64
numbers and is rounded to the even one, upwards. -/
theorem fl_moment64 :
    fl (3602879701896397 / 2 ^ 55 * (3 / 2)) = 5404319552844596 / 2 ^ 55 := by
  rw [fl_eq _ (-55) 5404319552844596 (by norm_num [abs_of_pos])
    (by norm_num [abs_of_pos]) (by norm_num [roundTiesEven])]
  norm_num

theorem fl_moment64_id : fl (5404319552844596 / 2 ^ 55) = 5404319552844596 / 2 ^ 55 := by
  rw [fl_eq _ (-55) 5404319552844596 (by norm_num [abs_of_pos])
    (by norm_num [abs_of_pos]) (by norm_num [roundTiesEven])]
  norm_num

theorem fl_Rb64 : fl (5404319552844596 / 2 ^ 55 / 3) = 7205759403792795 / 2 ^ 57 := by
  rw [fl_eq _ (-57) 7205759403792795 (by norm_num [abs_of_pos])
    (by norm_num [abs_of_pos]) (by norm_num [roundTiesEven])]
  norm_num

theorem fl_Ra64 : fl (3602879701896397 / 2 ^ 55 - 7205759403792795 / 2 ^ 57)
    = 7205759403792793 / 2 ^ 57 := by
  rw [fl_eq _ (-57) 7205759403792793 (by norm_num [abs_of_pos])
    (by norm_num [abs_of_pos]) (by norm_num [roundTiesEven])]
  norm_num

/-- C8 as stated fails in binary64: for `L = 3`, supports at `0` and `3` and
the point load `P = 0.1` (the binary64 number `tenth64`) at `L/2 = 1.5`, the
reactions computed with rounded operations are
`Ra = 7205759403792793 / 2^57` (printed `0.049999999999999996`) and
`Rb = 7205759403792795 / 2^57` (printed `0.05000000000000001`), one unit in
the last place below and above `P/2 = 7205759403792794 / 2^57`. -/
theorem C8_rounding_counterexample :
    (1 : ℚ) ≤ 3 ∧ fl (tenth64 / 2) = tenth64 / 2 ∧
    calculateReactions64 (midspanApp 3 tenth64 "pin" "roller")
      = Solution.reactions [⟨0, 7205759403792793 / 2 ^ 57, "Ra"⟩,
          ⟨3, 7205759403792795 / 2 ^ 57, "Rb"⟩] ∧
    (7205759403792793 / 2 ^ 57 : ℚ) ≠ tenth64 / 2 ∧
    (7205759403792795 / 2 ^ 57 : ℚ) ≠ tenth64 / 2 := by
  have hsort : sortSupports64 ⟨0, "pin"⟩ ⟨3, "roller"⟩ = (⟨0, "pin"⟩, ⟨3, "roller"⟩) := by
    simp only [sortSupports64, zero_sub, fl_neg_three]
    norm_num
  refine ⟨by norm_num, ?_, ?_, ?_, ?_⟩
  · simp only [tenth64]
    exact fl_half_tenth64
  · simp only [calculateReactions64, midspanApp, tenth64, hsort, List.foldl_cons,
      List.foldl_nil, pointMomentStep64, sub_zero, zero_add, fl_three, fl_three_halves,
      fl_tenth64, fl_moment64, fl_moment64_id, fl_Rb64, fl_Ra64]
    norm_num
  · norm_num [tenth64]
  · norm_num [tenth64]

end SFDandBMD
